import Mathlib

/-!
Verification of the WebDAV network-job layer (`src/libsync/networkjobs.cpp`).

The XML-consuming functions of the source (`LsColXMLParser::parse`,
`RequestEtagJob::finished`, `PropfindJob::finished`) read a `QXmlStreamReader`
token stream; we embed them over an explicit token list.  Byte arrays and
strings are embedded as `List Char`; Qt maps (`QMap`, `QVariantMap`, `QHash`)
are embedded as association lists with overwrite-on-insert.  Each definition
mirrors the control flow of the corresponding source function.
-/

namespace NetworkJobs

/-- Shorthand turning a string literal into the `List Char` representation
used throughout this development. -/
def cs (s : String) : List Char := s.toList

/-- One token of the XML token stream delivered by the external
`QXmlStreamReader` collaborator: start element (resolved namespace URI and
local name), end element, or character data.  Document-level tokens
(`StartDocument` …) trigger no branch in the source loops and are omitted. -/
inductive Token where
  | startElem (ns name : List Char) : Token
  | endElem (ns name : List Char) : Token
  | chars (text : List Char) : Token
deriving DecidableEq, Repr

/-- Association-list embedding of a Qt key→value map (`QMap` / `QVariantMap`). -/
abbrev PMap : Type := List (List Char × List Char)

/-- Insert into the association-list map, overwriting an existing binding,
matching `QMap::insert`'s overwrite semantics. -/
def pmInsert (m : PMap) (k v : List Char) : PMap :=
  (m.filter (fun p => p.1 ≠ k)) ++ [(k, v)]

/-- Insert into a `QHash<QString, qint64>` embedding, overwriting an existing
binding (used for the `sizes` out-parameter of the LsCol parser). -/
def hInsert (m : List (List Char × Int)) (k : List Char) (v : Int) :
    List (List Char × Int) :=
  (m.filter (fun p => p.1 ≠ k)) ++ [(k, v)]

/-- ASCII lowercasing of one character, the per-byte behaviour of
`QByteArray::toLower`. -/
def asciiLower (c : Char) : Char :=
  if 'A' ≤ c ∧ c ≤ 'Z' then Char.ofNat (c.toNat + 32) else c

/-- Value of a hexadecimal digit, used by percent-decoding. -/
def hexVal (c : Char) : Option Nat :=
  if '0' ≤ c ∧ c ≤ '9' then some (c.toNat - '0'.toNat)
  else if 'a' ≤ c ∧ c ≤ 'f' then some (c.toNat - 'a'.toNat + 10)
  else if 'A' ≤ c ∧ c ≤ 'F' then some (c.toNat - 'A'.toNat + 10)
  else none

/-- Embedding of the external `QByteArray::fromPercentEncoding`: a `%`
followed by two hex digits decodes to the corresponding byte; malformed
escapes are copied through unchanged. -/
def percentDecode : List Char → List Char
  | [] => []
  | '%' :: a :: b :: ts2 =>
    match hexVal a, hexVal b with
    | some x, some y => Char.ofNat (16 * x + y) :: percentDecode ts2
    | _, _ => '%' :: percentDecode (a :: b :: ts2)
  | c :: ts => c :: percentDecode ts

/-- Unfolding step of `percentDecode` at a character other than `%`. -/
theorem percentDecode_cons_ne (c : Char) (ts : List Char) (hc : c ≠ '%') :
    percentDecode (c :: ts) = c :: percentDecode ts := by
  conv_lhs => rw [percentDecode.eq_def]
  split
  · rename_i heq; cases heq
  · rename_i heq; injection heq with h1 _; exact absurd h1 hc
  · rename_i heq; injection heq with h1 h2; rw [h1, h2]

/-- A list that contains no percent sign decodes to itself. -/
theorem percentDecode_eq_self (l : List Char) (h : '%' ∉ l) :
    percentDecode l = l := by
  induction l with
  | nil => rfl
  | cons c ts ih =>
    have hc : ¬ c = '%' := fun hc => h (hc ▸ List.mem_cons_self c ts)
    have hts : '%' ∉ ts := fun hm => h (List.mem_cons_of_mem c hm)
    rw [percentDecode_cons_ne c ts hc, ih hts]

/-- Embedding of `QString::toLongLong` (base 10): leading and trailing
whitespace is ignored, an optional sign is followed by at least one decimal
digit, and the value must fit in a signed 64-bit integer; on any other input
the conversion fails (`ok = false`, embedded as `none`). -/
def toLongLong (s : List Char) : Option Int :=
  let isWs : Char → Bool := fun c => c = ' ' ∨ c = '\t' ∨ c = '\n' ∨ c = '\r'
  let t := ((s.dropWhile isWs).reverse.dropWhile isWs).reverse
  let signAndDigits : Bool × List Char :=
    match t with
    | '-' :: rest => (true, rest)
    | '+' :: rest => (false, rest)
    | rest => (false, rest)
  let digits := signAndDigits.2
  if digits = [] ∨ ¬ digits.all (fun c => decide ('0' ≤ c ∧ c ≤ '9')) then none
  else
    let n : Nat := digits.foldl (fun acc c => 10 * acc + (c.toNat - '0'.toNat)) 0
    let v : Int := if signAndDigits.1 then -(n : Int) else (n : Int)
    if -(2 ^ 63) ≤ v ∧ v < 2 ^ 63 then some v else none

/-! ### `parseEtag` (networkjobs.cpp lines 56–73) -/

/-- Embedding of `QByteArray::replace("-gzip", "")` as used by `parseEtag`:
scan left to right, deleting each occurrence of `-gzip` and continuing after
the deleted match. -/
def removeGzip : List Char → List Char
  | [] => []
  | '-' :: 'g' :: 'z' :: 'i' :: 'p' :: ts => removeGzip ts
  | c :: ts => c :: removeGzip ts

/-- Unfolding step of `removeGzip` at a position where no `-gzip` match
starts. -/
theorem removeGzip_cons_ne (c : Char) (ts : List Char)
    (h : ¬ cs "-gzip" <+: (c :: ts)) :
    removeGzip (c :: ts) = c :: removeGzip ts := by
  conv_lhs => rw [removeGzip.eq_def]
  split
  · rename_i heq; cases heq
  · rename_i ts2 heq
    exact absurd ⟨ts2, heq.symm⟩ h
  · rename_i c2 ts2 hno heq
    injection heq with e1 e2
    rw [e1, e2]

/-- Final step of `OCC::parseEtag`: one pair of surrounding double quotes is
removed when the value has length at least two and both ends are quotes. -/
def unquoteEtag (arr : List Char) : List Char :=
  if 2 ≤ arr.length ∧ arr.head? = some '"' ∧ arr.getLast? = some '"' then
    (arr.drop 1).dropLast
  else arr

/-- Embedding of `OCC::parseEtag`: empty input maps to empty output, a
leading `W/` is stripped, every `-gzip` occurrence is deleted, and finally
one pair of surrounding double quotes is removed. -/
def parseEtag (header : List Char) : List Char :=
  if header = [] then []
  else unquoteEtag (removeGzip (if cs "W/" <+: header then header.drop 2 else header))

/-- Scanning a list with no `-gzip` occurrence leaves it unchanged. -/
theorem removeGzip_eq_self (l : List Char) (h : ¬ cs "-gzip" <:+: l) :
    removeGzip l = l := by
  induction l with
  | nil => rfl
  | cons c ts ih =>
    rw [removeGzip_cons_ne c ts (fun hp => h (List.IsPrefix.isInfix hp))]
    exact congrArg _ (ih fun hi => h (List.infix_cons hi))

/-- If no `-gzip` occurrence starts strictly inside `t`, scanning
`t ++ -gzip ++ u` deletes exactly the explicit occurrence and then continues
scanning `u`. -/
theorem removeGzip_append (t u : List Char)
    (h : ∀ i < t.length, ¬ cs "-gzip" <+: (t ++ cs "-gzip" ++ u).drop i) :
    removeGzip (t ++ cs "-gzip" ++ u) = t ++ removeGzip u := by
  induction t with
  | nil => rfl
  | cons c ts ih =>
    have hne : ¬ cs "-gzip" <+: (c :: (ts ++ cs "-gzip" ++ u)) := by
      have h0 := h 0 (by simp)
      simpa using h0
    show removeGzip (c :: (ts ++ cs "-gzip" ++ u)) = c :: (ts ++ removeGzip u)
    rw [removeGzip_cons_ne _ _ hne]
    refine congrArg _ (ih fun i hi => ?_)
    have hi1 := h (i + 1) (by simpa using Nat.succ_lt_succ hi)
    simpa using hi1

/-- Stripping a `W/` weak-tag marker: the rest of the pipeline behaves as if
the marker had not been there (provided the remainder does not itself start
with `W/`, which would be stripped again on the direct run). -/
theorem parseEtag_w_strip (t : List Char) (h : ¬ cs "W/" <+: t) :
    parseEtag ('W' :: '/' :: t) = parseEtag t := by
  have hW : cs "W/" <+: ('W' :: '/' :: t) := ⟨t, rfl⟩
  rcases eq_or_ne t [] with rfl | hne
  · show parseEtag (cs "W/") = parseEtag []
    simp [parseEtag, unquoteEtag, removeGzip, cs]
  · unfold parseEtag
    rw [if_neg (by simp), if_neg hne, if_pos hW, if_neg h]
    rfl

/-- Unwrapping one pair of surrounding double quotes (when no `-gzip`
occurrence interferes). -/
theorem parseEtag_unquote (t : List Char)
    (h : ¬ cs "-gzip" <:+: ('"' :: t ++ ['"'])) :
    parseEtag ('"' :: t ++ ['"']) = t := by
  have hne : ('"' :: t ++ ['"']) ≠ [] := by simp
  have hW : ¬ cs "W/" <+: ('"' :: t ++ ['"']) := by
    rintro ⟨u, hu⟩
    have hu2 : ('W' :: '/' :: u : List Char) = '"' :: (t ++ ['"']) := hu
    injection hu2 with h1 _
    cases h1
  unfold parseEtag
  rw [if_neg hne, if_neg hW, removeGzip_eq_self _ h]
  unfold unquoteEtag
  rw [if_pos ⟨by simp, by simp, by rw [List.getLast?_concat]⟩]
  simp

/-- Deleting a `-gzip` suffix artifact: when the only `-gzip` occurrence is
the suffix itself and the input carries no `W/` marker, the result agrees
with the run on the input without the artifact. -/
theorem parseEtag_gzip_suffix (t : List Char)
    (hocc : ∀ i < t.length, ¬ cs "-gzip" <+: (t ++ cs "-gzip").drop i)
    (hW : ¬ cs "W/" <+: t) :
    parseEtag (t ++ cs "-gzip") = parseEtag t := by
  have h5 : (cs "-gzip").length = 5 := rfl
  have hself : ¬ cs "-gzip" <:+: t := by
    rintro ⟨s, u, rfl⟩
    have hlen : s.length < (s ++ cs "-gzip" ++ u).length := by
      rw [List.length_append, List.length_append, h5]; omega
    refine hocc s.length hlen ?_
    have hshape : (s ++ cs "-gzip" ++ u) ++ cs "-gzip"
        = s ++ (cs "-gzip" ++ (u ++ cs "-gzip")) := by
      simp [List.append_assoc]
    rw [hshape, List.drop_left]
    exact List.prefix_append _ _
  have hrg : removeGzip (t ++ cs "-gzip") = t := by
    have h0 := removeGzip_append t [] (by simpa using hocc)
    simpa [removeGzip] using h0
  have hrgt : removeGzip t = t := removeGzip_eq_self t hself
  rcases eq_or_ne t [] with rfl | hne
  · show parseEtag (cs "-gzip") = parseEtag []
    simp [parseEtag, unquoteEtag, removeGzip, cs]
  · have hgne : cs "-gzip" ≠ ([] : List Char) := by decide
    have hWg : ¬ cs "W/" <+: (t ++ cs "-gzip") := by
      intro hp
      rcases t with _ | ⟨c1, _ | ⟨c2, t2⟩⟩
      · exact hne rfl
      · rcases hp with ⟨u, hu⟩
        have hu2 : ('W' :: '/' :: u : List Char) = c1 :: '-' :: cs "gzip" := hu
        injection hu2 with _ h2
        injection h2 with h2 _
        cases h2
      · rcases hp with ⟨u, hu⟩
        have hu2 : ('W' :: '/' :: u : List Char) = c1 :: c2 :: (t2 ++ cs "-gzip") := hu
        injection hu2 with h1 h3
        injection h3 with h2 _
        exact hW ⟨t2, by rw [← h1, ← h2]; rfl⟩
    unfold parseEtag
    rw [if_neg (fun hc => hgne (List.append_eq_nil.mp hc).2), if_neg hne,
      if_neg hWg, if_neg hW, hrg, hrgt]

/-! ### `DetermineAuthTypeJob` (networkjobs.cpp lines 875–906) -/

/-- Result of the auth-type probe. -/
inductive AuthType where
  | basic : AuthType
  | oauth : AuthType
deriving DecidableEq, Repr

/-- Embedding of the completion lambda of `DetermineAuthTypeJob::start`: the
`WWW-Authenticate` header is lowercased byte-wise; if it contains the
substring `bearer ` (with a trailing space) the result is `OAuth`, otherwise
(including the empty header, which is additionally logged) the result is
`Basic`.  Exactly one result is produced per probe. -/
def determineAuthType (wwwAuthenticate : List Char) : AuthType :=
  if cs "bearer " <:+: wwwAuthenticate.map asciiLower then AuthType.oauth
  else AuthType.basic

/-! ### `CheckServerJob` (networkjobs.cpp lines 417–555) -/

/-- The `QNetworkReply` error conditions distinguished by
`CheckServerJob::finished`. -/
inductive NetError where
  | noError : NetError
  | contentNotFound : NetError
  | tooManyRedirects : NetError
  | otherError : NetError
deriving DecidableEq, Repr

/-- The `.object()` view of an externally parsed `QJsonDocument`: the keys of
the top-level JSON object, empty when the document is not an object. -/
structure JsonDoc where
  objKeys : List (List Char)
deriving DecidableEq, Repr

/-- The observable attributes of the reply that `CheckServerJob::finished`
inspects: the network error, the HTTP status attribute, the first 4 KiB of
the body (`reply()->peek(4 * 1024)`), and the result of the external
`QJsonDocument::fromJson` on that body (`none` on a JSON parse error). -/
structure StatusReply where
  error : NetError
  httpStatus : Int
  body : List Char
  json : Option JsonDoc
deriving DecidableEq, Repr

/-- What `CheckServerJob::finished` does with a completed reply: restart
with the subdirectory fallback path, emit `instanceFound`, or emit
`instanceNotFound`. -/
inductive CheckOutcome where
  | retry : CheckOutcome
  | instanceFound : CheckOutcome
  | instanceNotFound : CheckOutcome
deriving DecidableEq, Repr

/-- The mutable state of a `CheckServerJob` relevant to the fallback retry:
the `_subdirFallback` flag and the request path. -/
structure CheckServerState where
  subdirFallback : Bool
  path : List Char
deriving DecidableEq, Repr

/-- State of a freshly constructed `CheckServerJob` (path `status.php`,
`_subdirFallback = false`). -/
def checkServerInit : CheckServerState :=
  ⟨false, cs "status.php"⟩

/-- The keys of `status.object()` for a parsed-or-null `QJsonDocument`: a
parse failure leaves a null document, whose `.object()` view is the empty
object. -/
def jsonObjKeys : Option JsonDoc → List (List Char)
  | some doc => doc.objKeys
  | none => []

/-- Embedding of `CheckServerJob::finished`: on a content-not-found error
with the fallback still unused, switch the path to `owncloud/status.php`,
set `_subdirFallback` and restart; otherwise report `instanceNotFound` on a
redirect-loop error, an empty body, or a non-200 status; otherwise report
`instanceFound` exactly when the decoded JSON object has an `installed`
field (a JSON parse error only logs). -/
def checkServerFinished (st : CheckServerState) (r : StatusReply) :
    CheckServerState × CheckOutcome :=
  if r.error = NetError.contentNotFound ∧ st.subdirFallback = false then
    (⟨true, cs "owncloud/" ++ cs "status.php"⟩, CheckOutcome.retry)
  else if r.error = NetError.tooManyRedirects then
    (st, CheckOutcome.instanceNotFound)
  else if r.body = [] ∨ r.httpStatus ≠ 200 then
    (st, CheckOutcome.instanceNotFound)
  else if cs "installed" ∈ jsonObjKeys r.json then
    (st, CheckOutcome.instanceFound)
  else
    (st, CheckOutcome.instanceNotFound)

/-- A whole run of one `CheckServerJob`: the sequence of outcomes produced
by feeding each successive reply of its (re)started requests to
`checkServerFinished`, threading the job state. -/
def checkServerRun : CheckServerState → List StatusReply → List CheckOutcome
  | _, [] => []
  | st, r :: rs =>
    (checkServerFinished st r).2 :: checkServerRun (checkServerFinished st r).1 rs

/-- Once the fallback flag is set it stays set and no further retry occurs. -/
theorem checkServerFinished_no_retry_after_fallback (st : CheckServerState)
    (r : StatusReply) (h : st.subdirFallback = true) :
    (checkServerFinished st r).1.subdirFallback = true ∧
      (checkServerFinished st r).2 ≠ CheckOutcome.retry := by
  unfold checkServerFinished
  have hcond : ¬ (r.error = NetError.contentNotFound ∧ st.subdirFallback = false) := by
    rintro ⟨-, hf⟩; rw [h] at hf; cases hf
  rw [if_neg hcond]
  split
  · exact ⟨h, by simp⟩
  · split
    · exact ⟨h, by simp⟩
    · split
      · exact ⟨h, by simp⟩
      · exact ⟨h, by simp⟩

/-- A run starting with the fallback flag set contains no retry outcome. -/
theorem checkServerRun_no_retry (st : CheckServerState) (rs : List StatusReply)
    (h : st.subdirFallback = true) :
    (checkServerRun st rs).count CheckOutcome.retry = 0 := by
  induction rs generalizing st with
  | nil => rfl
  | cons r rs ih =>
    have hstep := checkServerFinished_no_retry_after_fallback st r h
    unfold checkServerRun
    rw [List.count_cons]
    rw [ih _ hstep.1]
    simp [hstep.2]

/-- A retry outcome always sets the fallback flag in the successor state. -/
theorem checkServerFinished_retry_sets_fallback (st : CheckServerState)
    (r : StatusReply) (h : (checkServerFinished st r).2 = CheckOutcome.retry) :
    (checkServerFinished st r).1.subdirFallback = true := by
  unfold checkServerFinished at h ⊢
  by_cases h1 : r.error = NetError.contentNotFound ∧ st.subdirFallback = false
  · rw [if_pos h1]
  · rw [if_neg h1] at h ⊢
    by_cases h2 : r.error = NetError.tooManyRedirects
    · rw [if_pos h2] at h; cases h
    · rw [if_neg h2] at h ⊢
      by_cases h3 : r.body = [] ∨ r.httpStatus ≠ 200
      · rw [if_pos h3] at h; cases h
      · rw [if_neg h3] at h ⊢
        by_cases hkey : cs "installed" ∈ jsonObjKeys r.json
        · rw [if_pos hkey] at h; cases h
        · rw [if_neg hkey] at h; cases h

/-- Any run of a `CheckServerJob`, from any state, retries at most once. -/
theorem checkServerRun_retry_le_one (st : CheckServerState)
    (rs : List StatusReply) :
    (checkServerRun st rs).count CheckOutcome.retry ≤ 1 := by
  induction rs generalizing st with
  | nil => simp [checkServerRun]
  | cons r rs ih =>
    unfold checkServerRun
    rw [List.count_cons]
    by_cases h : (checkServerFinished st r).2 = CheckOutcome.retry
    · rw [checkServerRun_no_retry _ _ (checkServerFinished_retry_sets_fallback st r h)]
      simp [h]
    · have hih := ih (checkServerFinished st r).1
      simp only [beq_iff_eq, h, if_false]
      omega

/-! ### `LsColXMLParser::parse` (networkjobs.cpp lines 180–308)

The parser walks the `QXmlStreamReader` token stream with mutable
per-response state.  `readElemText` embeds `QXmlStreamReader::readElementText`
(with its default error-on-unexpected-child behaviour) and `readContents`
embeds the static `readContentsAsString` helper; both advance the shared
reader, so they return the remaining token list along with their result.
-/

/-- The resolved `DAV:` namespace URI. -/
def davNs : List Char := cs "DAV:"

/-- Embedding of `QXmlStreamReader::readElementText` called right after a
start element: concatenates character data up to the matching end element;
an unexpected child element or running off the end of the stream raises a
reader error (third component `true`).  Returns the text, the tokens after
the consumed ones, and the error flag. -/
def readElemText : List Token → List Char × List Token × Bool
  | [] => ([], [], true)
  | Token.chars t :: ts =>
    let r := readElemText ts
    (t ++ r.1, r.2.1, r.2.2)
  | Token.endElem _ _ :: ts => ([], ts, false)
  | Token.startElem _ _ :: ts => ([], ts, true)

/-- Embedding of the static `readContentsAsString` helper: re-serializes the
inner markup of the current element as flat text (`<name>`, text,
`</name>`), stopping at the end element that closes the current level.
Returns the reconstructed text, the remaining tokens, the reader's current
element name when the loop stopped (the closing element's name), and an
error flag for running off the end of the stream. -/
def readContents : List Token → Nat → List Char × List Token × List Char × Bool
  | [], _ => ([], [], [], true)
  | Token.startElem _ n :: ts, level =>
    let r := readContents ts (level + 1)
    ('<' :: (n ++ '>' :: r.1), r.2.1, r.2.2.1, r.2.2.2)
  | Token.chars t :: ts, level =>
    let r := readContents ts level
    (t ++ r.1, r.2.1, r.2.2.1, r.2.2.2)
  | Token.endElem _ n :: ts, 0 => ([], ts, n, false)
  | Token.endElem _ n :: ts, level + 1 =>
    let r := readContents ts level
    ('<' :: '/' :: (n ++ '>' :: r.1), r.2.1, r.2.2.1, r.2.2.2)

theorem readElemText_length (ts : List Token) :
    (readElemText ts).2.1.length ≤ ts.length := by
  induction ts with
  | nil => simp [readElemText]
  | cons t ts ih =>
    match t with
    | Token.chars c => simpa [readElemText] using Nat.le_succ_of_le ih
    | Token.endElem ns n => simp [readElemText]
    | Token.startElem ns n => simp [readElemText]

theorem readContents_length (ts : List Token) (level : Nat) :
    (readContents ts level).2.1.length ≤ ts.length := by
  induction ts generalizing level with
  | nil => simp [readContents]
  | cons t ts ih =>
    match t with
    | Token.chars c => simpa [readContents] using Nat.le_succ_of_le (ih level)
    | Token.startElem ns n =>
      simpa [readContents] using Nat.le_succ_of_le (ih (level + 1))
    | Token.endElem ns n =>
      match level with
      | 0 => simp [readContents]
      | l + 1 => simpa [readContents] using Nat.le_succ_of_le (ih l)

/-- The mutable local state of one `LsColXMLParser::parse` invocation,
together with the lists of signals it has emitted so far (`emitted` records
the `directoryListingIterated` payloads in order; `sizes` is the caller's
`QHash` out-parameter). -/
structure LsState where
  folders : List (List Char)
  currentHref : List Char
  tmpProps : PMap
  http200Props : PMap
  have200 : Bool
  insidePropstat : Bool
  insideProp : Bool
  insideMulti : Bool
  sizes : List (List Char × Int)
  emitted : List (List Char × PMap)
deriving Repr, DecidableEq

/-- Initial parser state. -/
def lsInit : LsState :=
  ⟨[], [], [], [], false, false, false, false, [], []⟩

/-- Result of one iteration of the parse loop: either the early
`return false` taken when a `href` fails validation, or the tokens, reader
error flag and state with which the loop continues. -/
inductive StepRes where
  | failParse (st : LsState) : StepRes
  | cont (ts : List Token) (err : Bool) (st : LsState) : StepRes
deriving Repr

/-- The property-capture block of the parse loop (lines 257–270): when the
parser is inside `propstat` and inside `prop`, every start element is a
property: its reconstructed content is captured, a `resourcetype` containing
`collection` appends the current href to the folder list, a numeric `size`
records an entry in the sizes hash, and the property is stored in the
working map under the reader's current element name.  (After a reader error
the content read is empty and the reader has no current element.) -/
def lsPropCapture (name0 : List Char) (ts : List Token) (err : Bool)
    (st : LsState) : StepRes :=
  if st.insidePropstat ∧ st.insideProp then
    if err then
      StepRes.cont ts true { st with tmpProps := pmInsert st.tmpProps [] [] }
    else
      let r := readContents ts 0
      let st1 :=
        if name0 = cs "resourcetype" ∧ cs "collection" <:+: r.1 then
          { st with folders := st.folders ++ [st.currentHref] }
        else if name0 = cs "size" then
          match toLongLong r.1 with
          | some s => { st with sizes := hInsert st.sizes st.currentHref s }
          | none => st
        else st
      StepRes.cont r.2.1 r.2.2.2 { st1 with tmpProps := pmInsert st1.tmpProps r.2.2.1 r.1 }
  else StepRes.cont ts err st

/-- One iteration of the `while (!reader.atEnd())` loop of
`LsColXMLParser::parse`, given the token just read and the tokens after it:
the `DAV:` start-element dispatch (lines 228–255), then the property
capture (lines 257–270), then the `DAV:` end-element dispatch
(lines 273–293). -/
def lsStep (expectedPath : List Char) (tok : Token) (rest : List Token)
    (st : LsState) : StepRes :=
  match tok with
  | Token.chars _ => StepRes.cont rest false st
  | Token.startElem ns n =>
    if ns = davNs ∧ n = cs "href" then
      let r := readElemText rest
      let hrefString := percentDecode r.1
      if ¬ expectedPath <+: hrefString then StepRes.failParse st
      else lsPropCapture n r.2.1 r.2.2 { st with currentHref := hrefString }
    else if ns = davNs ∧ n = cs "response" then
      lsPropCapture n rest false st
    else if ns = davNs ∧ n = cs "propstat" then
      lsPropCapture n rest false { st with insidePropstat := true }
    else if ns = davNs ∧ n = cs "status" ∧ st.insidePropstat then
      let r := readElemText rest
      lsPropCapture n r.2.1 r.2.2
        { st with have200 := List.isPrefixOf (cs "HTTP/1.1 200") r.1 }
    else if ns = davNs ∧ n = cs "prop" then
      StepRes.cont rest false { st with insideProp := true }
    else if ns = davNs ∧ n = cs "multistatus" then
      StepRes.cont rest false { st with insideMulti := true }
    else lsPropCapture n rest false st
  | Token.endElem ns n =>
    if ns = davNs then
      if n = cs "response" then
        let href :=
          if st.currentHref.getLast? = some '/' then st.currentHref.dropLast
          else st.currentHref
        StepRes.cont rest false
          { st with
            emitted := st.emitted ++ [(href, st.http200Props)],
            currentHref := [], http200Props := [] }
      else if n = cs "propstat" then
        StepRes.cont rest false
          { st with
            insidePropstat := false,
            http200Props := if st.have200 then st.tmpProps else st.http200Props,
            tmpProps := [], have200 := false }
      else if n = cs "prop" then
        StepRes.cont rest false { st with insideProp := false }
      else StepRes.cont rest false st
    else StepRes.cont rest false st

theorem lsPropCapture_cont_length (name0 : List Char) (ts : List Token)
    (err : Bool) (st : LsState) (ts2 : List Token) (err2 : Bool) (st2 : LsState)
    (h : lsPropCapture name0 ts err st = StepRes.cont ts2 err2 st2) :
    ts2.length ≤ ts.length := by
  unfold lsPropCapture at h
  split at h
  · split at h
    · injection h with h1 _; rw [← h1]
    · injection h with h1 _; rw [← h1]
      exact readContents_length ts 0
  · injection h with h1 _; rw [← h1]

theorem lsStep_cont_length (expectedPath : List Char) (tok : Token)
    (rest : List Token) (st : LsState) (ts2 : List Token) (err2 : Bool)
    (st2 : LsState) (h : lsStep expectedPath tok rest st = StepRes.cont ts2 err2 st2) :
    ts2.length ≤ rest.length := by
  unfold lsStep at h
  match tok with
  | Token.chars t => injection h with h1 _; rw [← h1]
  | Token.startElem ns n =>
    dsimp only at h
    split at h
    · split at h
      · cases h
      · exact le_trans (lsPropCapture_cont_length _ _ _ _ _ _ _ h)
          (readElemText_length rest)
    · split at h
      · exact lsPropCapture_cont_length _ _ _ _ _ _ _ h
      · split at h
        · exact lsPropCapture_cont_length _ _ _ _ _ _ _ h
        · split at h
          · exact le_trans (lsPropCapture_cont_length _ _ _ _ _ _ _ h)
              (readElemText_length rest)
          · split at h
            · injection h with h1 _; rw [← h1]
            · split at h
              · injection h with h1 _; rw [← h1]
              · exact lsPropCapture_cont_length _ _ _ _ _ _ _ h
  | Token.endElem ns n =>
    dsimp only at h
    split at h
    · split at h
      · injection h with h1 _; rw [← h1]
      · split at h
        · injection h with h1 _; rw [← h1]
        · split at h
          · injection h with h1 _; rw [← h1]
          · injection h with h1 _; rw [← h1]
    · injection h with h1 _; rw [← h1]

/-- The main loop of `LsColXMLParser::parse` followed by its postlude: on a
reader error the parse fails (entries already emitted stand), without a
top-level `multistatus` element it fails, otherwise it succeeds (and the
folder list is published). -/
def lsLoop (expectedPath : List Char) (ts : List Token) (err : Bool)
    (st : LsState) : Bool × LsState :=
  if err then (false, st)
  else
    match ts with
    | [] => (if st.insideMulti then true else false, st)
    | tok :: rest =>
      match h2 : lsStep expectedPath tok rest st with
      | StepRes.failParse st2 => (false, st2)
      | StepRes.cont ts2 err2 st2 => lsLoop expectedPath ts2 err2 st2
termination_by ts.length
decreasing_by
  have := lsStep_cont_length expectedPath tok rest st ts2 err2 st2 h2
  simp only [List.length_cons]
  omega

/-- Embedding of `LsColXMLParser::parse` on the token stream of the
response body: returns the C++ return value together with the final state
(emitted entries, folder list, sizes hash). -/
def lsColParse (xml : List Token) (expectedPath : List Char) : Bool × LsState :=
  lsLoop expectedPath xml false lsInit

theorem lsLoop_err (expectedPath : List Char) (ts : List Token) (st : LsState) :
    lsLoop expectedPath ts true st = (false, st) := by
  rw [lsLoop.eq_def]
  rfl

theorem lsLoop_nil (expectedPath : List Char) (st : LsState) :
    lsLoop expectedPath [] false st = (if st.insideMulti then true else false, st) := by
  rw [lsLoop.eq_def]
  rfl

theorem lsLoop_cons_cont (expectedPath : List Char) (tok : Token)
    (rest : List Token) (st : LsState) (ts2 : List Token) (err2 : Bool)
    (st2 : LsState) (h : lsStep expectedPath tok rest st = StepRes.cont ts2 err2 st2) :
    lsLoop expectedPath (tok :: rest) false st = lsLoop expectedPath ts2 err2 st2 := by
  rw [lsLoop.eq_def]
  rw [if_neg Bool.false_ne_true]
  split
  · rename_i heq; cases heq
  · rename_i tokA restA heq
    injection heq with e1 e2
    subst e1; subst e2
    split
    · rename_i st3 heq2; rw [h] at heq2; cases heq2
    · rename_i ts3 err3 st3 heq2
      rw [h] at heq2
      injection heq2 with e3 e4 e5
      rw [e3, e4, e5]

theorem lsLoop_cons_fail (expectedPath : List Char) (tok : Token)
    (rest : List Token) (st : LsState) (st2 : LsState)
    (h : lsStep expectedPath tok rest st = StepRes.failParse st2) :
    lsLoop expectedPath (tok :: rest) false st = (false, st2) := by
  rw [lsLoop.eq_def]
  rw [if_neg Bool.false_ne_true]
  split
  · rename_i heq; cases heq
  · rename_i tokA restA heq
    injection heq with e1 e2
    subst e1; subst e2
    split
    · rename_i st3 heq2; rw [h] at heq2; injection heq2 with e3; rw [e3]
    · rename_i ts3 err3 st3 heq2; rw [h] at heq2; cases heq2

/-! ### Rendered multistatus documents

To quantify over well-formed multistatus bodies we render structured
response descriptions into token streams and prove how the parser embedding
consumes them.  Properties are rendered in the ownCloud namespace (as the
`oc:`-prefixed properties of real listings are), so their names are
unconstrained; the structural `DAV:` elements are rendered as the protocol
produces them.
-/

/-- The ownCloud property namespace URI. -/
def ocNs : List Char := cs "http://owncloud.org/ns"

/-- Concatenation of the renders of a list of items. -/
def catMap (f : α → List Token) : List α → List Token
  | [] => []
  | x :: xs => f x ++ catMap f xs

/-- One `propstat` block of a rendered document: properties (name, plain
text content) and the status line text. -/
structure RPropstat where
  props : List (List Char × List Char)
  status : List Char
deriving Repr, DecidableEq

/-- One `response` block of a rendered document. -/
structure RResponse where
  href : List Char
  propstats : List RPropstat
deriving Repr, DecidableEq

/-- Token render of one property element. -/
def renderProp (p : List Char × List Char) : List Token :=
  [Token.startElem ocNs p.1, Token.chars p.2, Token.endElem ocNs p.1]

/-- Token render of one `propstat` block (`prop` first, then `status`). -/
def renderPropstat (ps : RPropstat) : List Token :=
  Token.startElem davNs (cs "propstat") ::
    Token.startElem davNs (cs "prop") ::
      (catMap renderProp ps.props ++
        (Token.endElem davNs (cs "prop") ::
         Token.startElem davNs (cs "status") :: Token.chars ps.status ::
         Token.endElem davNs (cs "status") ::
         Token.endElem davNs (cs "propstat") :: []))

/-- Token render of one `response` block. -/
def renderResponse (r : RResponse) : List Token :=
  Token.startElem davNs (cs "response") ::
    Token.startElem davNs (cs "href") :: Token.chars r.href ::
    Token.endElem davNs (cs "href") ::
      (catMap renderPropstat r.propstats ++ [Token.endElem davNs (cs "response")])

/-- Token render of a whole multistatus document. -/
def renderMultistatus (rs : List RResponse) : List Token :=
  Token.startElem davNs (cs "multistatus") ::
    (catMap renderResponse rs ++ [Token.endElem davNs (cs "multistatus")])

/-- Trailing-slash strip applied to the href when a response is emitted. -/
def chopSlash (href : List Char) : List Char :=
  if href.getLast? = some '/' then href.dropLast else href

/-- State effect of consuming one rendered property element. -/
def propEffect (p : List Char × List Char) (st : LsState) : LsState :=
  let st1 :=
    if p.1 = cs "resourcetype" ∧ cs "collection" <:+: p.2 then
      { st with folders := st.folders ++ [st.currentHref] }
    else if p.1 = cs "size" then
      match toLongLong p.2 with
      | some s => { st with sizes := hInsert st.sizes st.currentHref s }
      | none => st
    else st
  { st1 with tmpProps := pmInsert st1.tmpProps p.1 p.2 }

/-- State effect of consuming one rendered `propstat` block. -/
def propstatEffect (ps : RPropstat) (st : LsState) : LsState :=
  let st3 := ps.props.foldl (fun s p => propEffect p s)
      { st with insidePropstat := true, insideProp := true }
  { st3 with
    insidePropstat := false, insideProp := false,
    have200 := false, tmpProps := [],
    http200Props :=
      if List.isPrefixOf (cs "HTTP/1.1 200") ps.status then st3.tmpProps
      else st3.http200Props }

/-- State effect of consuming one rendered `response` block. -/
def respEffect (r : RResponse) (st : LsState) : LsState :=
  let st2 := r.propstats.foldl (fun s ps => propstatEffect ps s)
      { st with currentHref := r.href }
  { st2 with
    emitted := st2.emitted ++ [(chopSlash st2.currentHref, st2.http200Props)],
    currentHref := [], http200Props := [] }

/-- Final state of a successful parse of a rendered document. -/
def docEffect (rs : List RResponse) : LsState :=
  rs.foldl (fun s r => respEffect r s) { lsInit with insideMulti := true }

/-! ### Per-token simulation lemmas -/

theorem lsLoop_multistatus_start (ep : List Char) (rest : List Token)
    (st : LsState) :
    lsLoop ep (Token.startElem davNs (cs "multistatus") :: rest) false st
      = lsLoop ep rest false { st with insideMulti := true } := by
  refine lsLoop_cons_cont _ _ _ _ _ _ _ ?_
  rw [lsStep.eq_def]
  dsimp only
  rw [if_neg (fun hc => absurd hc.2 (by decide)),
      if_neg (fun hc => absurd hc.2 (by decide)),
      if_neg (fun hc => absurd hc.2 (by decide)),
      if_neg (fun hc => absurd hc.2.1 (by decide)),
      if_neg (fun hc => absurd hc.2 (by decide)),
      if_pos ⟨rfl, rfl⟩]

theorem lsLoop_response_start (ep : List Char) (rest : List Token)
    (st : LsState) (hps : st.insidePropstat = false) :
    lsLoop ep (Token.startElem davNs (cs "response") :: rest) false st
      = lsLoop ep rest false st := by
  refine lsLoop_cons_cont _ _ _ _ _ _ _ ?_
  rw [lsStep.eq_def]
  dsimp only
  rw [if_neg (fun hc => absurd hc.2 (by decide)), if_pos ⟨rfl, rfl⟩]
  unfold lsPropCapture
  rw [if_neg (fun hc => by rw [hps] at hc; exact Bool.false_ne_true hc.1)]

theorem lsLoop_href_ok (ep : List Char) (htext : List Char) (rest : List Token)
    (st : LsState) (hpre : ep <+: percentDecode htext)
    (hps : st.insidePropstat = false) :
    lsLoop ep (Token.startElem davNs (cs "href") :: Token.chars htext ::
        Token.endElem davNs (cs "href") :: rest) false st
      = lsLoop ep rest false { st with currentHref := percentDecode htext } := by
  refine lsLoop_cons_cont _ _ _ _ _ _ _ ?_
  rw [lsStep.eq_def]
  dsimp only
  rw [if_pos ⟨rfl, rfl⟩]
  have hre : readElemText (Token.chars htext ::
      Token.endElem davNs (cs "href") :: rest) = (htext ++ [], rest, false) := rfl
  rw [hre]
  simp only [List.append_nil]
  rw [if_neg (fun hc => hc hpre)]
  unfold lsPropCapture
  rw [if_neg (fun hc => by rw [hps] at hc; exact Bool.false_ne_true hc.1)]

theorem lsLoop_href_fail (ep : List Char) (htext : List Char) (rest : List Token)
    (st : LsState) (hpre : ¬ ep <+: percentDecode htext) :
    lsLoop ep (Token.startElem davNs (cs "href") :: Token.chars htext ::
        Token.endElem davNs (cs "href") :: rest) false st
      = (false, st) := by
  refine lsLoop_cons_fail _ _ _ _ _ ?_
  rw [lsStep.eq_def]
  dsimp only
  rw [if_pos ⟨rfl, rfl⟩]
  have hre : readElemText (Token.chars htext ::
      Token.endElem davNs (cs "href") :: rest) = (htext ++ [], rest, false) := rfl
  rw [hre]
  simp only [List.append_nil]
  rw [if_pos hpre]

theorem lsLoop_propstat_start (ep : List Char) (rest : List Token)
    (st : LsState) (hp : st.insideProp = false) :
    lsLoop ep (Token.startElem davNs (cs "propstat") :: rest) false st
      = lsLoop ep rest false { st with insidePropstat := true } := by
  refine lsLoop_cons_cont _ _ _ _ _ _ _ ?_
  rw [lsStep.eq_def]
  dsimp only
  rw [if_neg (fun hc => absurd hc.2 (by decide)),
      if_neg (fun hc => absurd hc.2 (by decide)),
      if_pos ⟨rfl, rfl⟩]
  unfold lsPropCapture
  rw [if_neg (fun hc => by rw [hp] at hc; exact Bool.false_ne_true hc.2)]

theorem lsLoop_prop_start (ep : List Char) (rest : List Token) (st : LsState) :
    lsLoop ep (Token.startElem davNs (cs "prop") :: rest) false st
      = lsLoop ep rest false { st with insideProp := true } := by
  refine lsLoop_cons_cont _ _ _ _ _ _ _ ?_
  rw [lsStep.eq_def]
  dsimp only
  rw [if_neg (fun hc => absurd hc.2 (by decide)),
      if_neg (fun hc => absurd hc.2 (by decide)),
      if_neg (fun hc => absurd hc.2 (by decide)),
      if_neg (fun hc => absurd hc.2.1 (by decide)),
      if_pos ⟨rfl, rfl⟩]

theorem lsLoop_status (ep : List Char) (stext : List Char) (rest : List Token)
    (st : LsState) (hps : st.insidePropstat = true) (hp : st.insideProp = false) :
    lsLoop ep (Token.startElem davNs (cs "status") :: Token.chars stext ::
        Token.endElem davNs (cs "status") :: rest) false st
      = lsLoop ep rest false
          { st with have200 := List.isPrefixOf (cs "HTTP/1.1 200") stext } := by
  refine lsLoop_cons_cont _ _ _ _ _ _ _ ?_
  rw [lsStep.eq_def]
  dsimp only
  rw [if_neg (fun hc => absurd hc.2 (by decide)),
      if_neg (fun hc => absurd hc.2 (by decide)),
      if_neg (fun hc => absurd hc.2 (by decide)),
      if_pos ⟨rfl, rfl, hps⟩]
  have hre : readElemText (Token.chars stext ::
      Token.endElem davNs (cs "status") :: rest) = (stext ++ [], rest, false) := rfl
  rw [hre]
  simp only [List.append_nil]
  unfold lsPropCapture
  rw [if_neg (fun hc => by rw [hp] at hc; exact Bool.false_ne_true hc.2)]

theorem lsLoop_ocProp (ep : List Char) (nm tx : List Char) (rest : List Token)
    (st : LsState) (hps : st.insidePropstat = true) (hp : st.insideProp = true) :
    lsLoop ep (Token.startElem ocNs nm :: Token.chars tx ::
        Token.endElem ocNs nm :: rest) false st
      = lsLoop ep rest false (propEffect (nm, tx) st) := by
  refine lsLoop_cons_cont _ _ _ _ _ _ _ ?_
  rw [lsStep.eq_def]
  dsimp only
  have hoc : ¬ (ocNs = davNs) := by decide
  rw [if_neg (fun hc => hoc hc.1), if_neg (fun hc => hoc hc.1),
      if_neg (fun hc => hoc hc.1), if_neg (fun hc => hoc hc.1),
      if_neg (fun hc => hoc hc.1), if_neg (fun hc => hoc hc.1)]
  unfold lsPropCapture propEffect
  rw [if_pos ⟨hps, hp⟩, if_neg Bool.false_ne_true]
  have hrc : readContents (Token.chars tx :: Token.endElem ocNs nm :: rest) 0
      = (tx ++ [], rest, nm, false) := rfl
  rw [hrc]
  simp only [List.append_nil]

theorem lsLoop_prop_end (ep : List Char) (rest : List Token) (st : LsState) :
    lsLoop ep (Token.endElem davNs (cs "prop") :: rest) false st
      = lsLoop ep rest false { st with insideProp := false } := by
  refine lsLoop_cons_cont _ _ _ _ _ _ _ ?_
  rw [lsStep.eq_def]
  dsimp only
  rw [if_pos rfl, if_neg (by decide), if_neg (by decide), if_pos rfl]

theorem lsLoop_propstat_end (ep : List Char) (rest : List Token) (st : LsState) :
    lsLoop ep (Token.endElem davNs (cs "propstat") :: rest) false st
      = lsLoop ep rest false
          { st with
            insidePropstat := false,
            http200Props := if st.have200 then st.tmpProps else st.http200Props,
            tmpProps := [], have200 := false } := by
  refine lsLoop_cons_cont _ _ _ _ _ _ _ ?_
  rw [lsStep.eq_def]
  dsimp only
  rw [if_pos rfl, if_neg (by decide), if_pos rfl]

theorem lsLoop_response_end (ep : List Char) (rest : List Token) (st : LsState) :
    lsLoop ep (Token.endElem davNs (cs "response") :: rest) false st
      = lsLoop ep rest false
          { st with
            emitted := st.emitted ++ [(chopSlash st.currentHref, st.http200Props)],
            currentHref := [], http200Props := [] } := by
  refine lsLoop_cons_cont _ _ _ _ _ _ _ ?_
  rw [lsStep.eq_def]
  dsimp only
  rw [if_pos rfl, if_pos rfl]
  unfold chopSlash
  split <;> rfl

theorem lsLoop_multistatus_end (ep : List Char) (rest : List Token)
    (st : LsState) :
    lsLoop ep (Token.endElem davNs (cs "multistatus") :: rest) false st
      = lsLoop ep rest false st := by
  refine lsLoop_cons_cont _ _ _ _ _ _ _ ?_
  rw [lsStep.eq_def]
  dsimp only
  rw [if_pos rfl, if_neg (by decide), if_neg (by decide), if_neg (by decide)]

/-! ### Fold-level simulation lemmas -/

theorem propEffect_flags (p : List Char × List Char) (st : LsState) :
    (propEffect p st).insidePropstat = st.insidePropstat ∧
    (propEffect p st).insideProp = st.insideProp ∧
    (propEffect p st).currentHref = st.currentHref ∧
    (propEffect p st).have200 = st.have200 ∧
    (propEffect p st).http200Props = st.http200Props ∧
    (propEffect p st).insideMulti = st.insideMulti ∧
    (propEffect p st).emitted = st.emitted := by
  unfold propEffect
  repeat' split
  all_goals exact ⟨rfl, rfl, rfl, rfl, rfl, rfl, rfl⟩

theorem foldl_propEffect_flags (props : List (List Char × List Char))
    (st : LsState) :
    ((props.foldl (fun s p => propEffect p s) st).insidePropstat
        = st.insidePropstat) ∧
    ((props.foldl (fun s p => propEffect p s) st).insideProp = st.insideProp) ∧
    ((props.foldl (fun s p => propEffect p s) st).currentHref
        = st.currentHref) ∧
    ((props.foldl (fun s p => propEffect p s) st).have200 = st.have200) ∧
    ((props.foldl (fun s p => propEffect p s) st).http200Props
        = st.http200Props) ∧
    ((props.foldl (fun s p => propEffect p s) st).insideMulti
        = st.insideMulti) ∧
    ((props.foldl (fun s p => propEffect p s) st).emitted = st.emitted) := by
  induction props generalizing st with
  | nil => exact ⟨rfl, rfl, rfl, rfl, rfl, rfl, rfl⟩
  | cons p ps ih =>
    have hp := propEffect_flags p st
    have hi := ih (propEffect p st)
    exact ⟨hi.1.trans hp.1, hi.2.1.trans hp.2.1, hi.2.2.1.trans hp.2.2.1,
      hi.2.2.2.1.trans hp.2.2.2.1, hi.2.2.2.2.1.trans hp.2.2.2.2.1,
      hi.2.2.2.2.2.1.trans hp.2.2.2.2.2.1, hi.2.2.2.2.2.2.trans hp.2.2.2.2.2.2⟩

theorem lsLoop_props (ep : List Char) (props : List (List Char × List Char))
    (ts : List Token) (st : LsState) (hps : st.insidePropstat = true)
    (hp : st.insideProp = true) :
    lsLoop ep (catMap renderProp props ++ ts) false st
      = lsLoop ep ts false (props.foldl (fun s p => propEffect p s) st) := by
  induction props generalizing st with
  | nil => rfl
  | cons p ps ih =>
    show lsLoop ep ((renderProp p ++ catMap renderProp ps) ++ ts) false st = _
    rw [List.append_assoc]
    rw [show renderProp p ++ (catMap renderProp ps ++ ts)
        = Token.startElem ocNs p.1 :: Token.chars p.2 :: Token.endElem ocNs p.1
          :: (catMap renderProp ps ++ ts) from rfl]
    rw [lsLoop_ocProp ep p.1 p.2 _ st hps hp]
    exact ih (propEffect p st) ((propEffect_flags p st).1.trans hps)
      ((propEffect_flags p st).2.1.trans hp)

theorem lsLoop_propstat (ep : List Char) (ps : RPropstat) (ts : List Token)
    (st : LsState) (hps : st.insidePropstat = false)
    (hp : st.insideProp = false) :
    lsLoop ep (renderPropstat ps ++ ts) false st
      = lsLoop ep ts false (propstatEffect ps st) := by
  show lsLoop ep (Token.startElem davNs (cs "propstat") ::
      Token.startElem davNs (cs "prop") ::
      ((catMap renderProp ps.props ++ _) ++ ts)) false st = _
  rw [List.append_assoc]
  rw [lsLoop_propstat_start ep _ st hp]
  rw [lsLoop_prop_start]
  rw [lsLoop_props ep ps.props _ _ rfl rfl]
  rw [show (Token.endElem davNs (cs "prop") :: Token.startElem davNs (cs "status")
      :: Token.chars ps.status :: Token.endElem davNs (cs "status")
      :: Token.endElem davNs (cs "propstat") :: []) ++ ts
      = Token.endElem davNs (cs "prop") :: Token.startElem davNs (cs "status")
        :: Token.chars ps.status :: Token.endElem davNs (cs "status")
        :: Token.endElem davNs (cs "propstat") :: ts from rfl]
  rw [lsLoop_prop_end]
  rw [lsLoop_status ep ps.status _ _
    (by
      refine ((foldl_propEffect_flags ps.props _).1.trans ?_)
      rfl)
    rfl]
  rw [lsLoop_propstat_end]
  rfl

theorem propstatEffect_flags (ps : RPropstat) (st : LsState) :
    (propstatEffect ps st).insidePropstat = false ∧
    (propstatEffect ps st).insideProp = false ∧
    (propstatEffect ps st).currentHref = st.currentHref ∧
    (propstatEffect ps st).insideMulti = st.insideMulti ∧
    (propstatEffect ps st).emitted = st.emitted := by
  unfold propstatEffect
  refine ⟨rfl, rfl, ?_, ?_, ?_⟩
  · exact (foldl_propEffect_flags ps.props _).2.2.1
  · exact (foldl_propEffect_flags ps.props _).2.2.2.2.2.1
  · exact (foldl_propEffect_flags ps.props _).2.2.2.2.2.2

theorem lsLoop_propstats (ep : List Char) (pss : List RPropstat)
    (ts : List Token) (st : LsState) (hps : st.insidePropstat = false)
    (hp : st.insideProp = false) :
    lsLoop ep (catMap renderPropstat pss ++ ts) false st
      = lsLoop ep ts false (pss.foldl (fun s x => propstatEffect x s) st) := by
  induction pss generalizing st with
  | nil => rfl
  | cons x xs ih =>
    show lsLoop ep ((renderPropstat x ++ catMap renderPropstat xs) ++ ts) false st = _
    rw [List.append_assoc]
    rw [lsLoop_propstat ep x _ st hps hp]
    exact ih (propstatEffect x st) (propstatEffect_flags x st).1
      (propstatEffect_flags x st).2.1

theorem lsLoop_response (ep : List Char) (r : RResponse) (ts : List Token)
    (st : LsState) (hnp : '%' ∉ r.href) (hhref : ep <+: r.href)
    (hps : st.insidePropstat = false) (hp : st.insideProp = false) :
    lsLoop ep (renderResponse r ++ ts) false st
      = lsLoop ep ts false (respEffect r st) := by
  show lsLoop ep (Token.startElem davNs (cs "response") ::
      Token.startElem davNs (cs "href") :: Token.chars r.href ::
      Token.endElem davNs (cs "href") ::
      ((catMap renderPropstat r.propstats ++ _) ++ ts)) false st = _
  rw [List.append_assoc]
  rw [lsLoop_response_start ep _ st hps]
  rw [lsLoop_href_ok ep r.href _ st
    (by rw [percentDecode_eq_self r.href hnp]; exact hhref) hps]
  rw [percentDecode_eq_self r.href hnp]
  rw [lsLoop_propstats ep r.propstats _ { st with currentHref := r.href } hps hp]
  rw [show [Token.endElem davNs (cs "response")] ++ ts
      = Token.endElem davNs (cs "response") :: ts from rfl]
  rw [lsLoop_response_end]
  rfl

theorem respEffect_flags (r : RResponse) (st : LsState)
    (hps : st.insidePropstat = false) (hp : st.insideProp = false) :
    (respEffect r st).insidePropstat = false ∧
    (respEffect r st).insideProp = false ∧
    (respEffect r st).insideMulti = st.insideMulti := by
  unfold respEffect
  have hfold : ∀ (pss : List RPropstat) (s : LsState),
      s.insidePropstat = false → s.insideProp = false →
      ((pss.foldl (fun a x => propstatEffect x a) s).insidePropstat = false ∧
       (pss.foldl (fun a x => propstatEffect x a) s).insideProp = false ∧
       (pss.foldl (fun a x => propstatEffect x a) s).insideMulti = s.insideMulti) := by
    intro pss
    induction pss with
    | nil => intro s h1 h2; exact ⟨h1, h2, rfl⟩
    | cons x xs ih =>
      intro s h1 h2
      have hx := propstatEffect_flags x s
      have hi := ih (propstatEffect x s) hx.1 hx.2.1
      exact ⟨hi.1, hi.2.1, hi.2.2.trans hx.2.2.2.1⟩
  have h0 := hfold r.propstats { st with currentHref := r.href } hps hp
  exact ⟨h0.1, h0.2.1, h0.2.2⟩

theorem lsLoop_responses (ep : List Char) (rss : List RResponse)
    (ts : List Token) (st : LsState)
    (hh : ∀ r ∈ rss, ep <+: r.href ∧ '%' ∉ r.href)
    (hps : st.insidePropstat = false) (hp : st.insideProp = false) :
    lsLoop ep (catMap renderResponse rss ++ ts) false st
      = lsLoop ep ts false (rss.foldl (fun s r => respEffect r s) st) := by
  revert hh
  induction rss generalizing st with
  | nil => intro hh; rfl
  | cons r rs ih =>
    intro hh
    show lsLoop ep ((renderResponse r ++ catMap renderResponse rs) ++ ts) false st = _
    rw [List.append_assoc]
    have hr := hh r (List.mem_cons_self r rs)
    rw [lsLoop_response ep r _ st hr.2 hr.1 hps hp]
    exact ih (respEffect r st) (respEffect_flags r st hps hp).1
      (respEffect_flags r st hps hp).2.1
      (fun x hx => hh x (List.mem_cons_of_mem r hx))

/-- Master simulation theorem: parsing a rendered multistatus document whose
hrefs all start with the expected path (and contain no percent escapes)
succeeds and produces exactly the state described by the rendered effects. -/
theorem lsColParse_render (rs : List RResponse) (ep : List Char)
    (hh : ∀ r ∈ rs, ep <+: r.href ∧ '%' ∉ r.href) :
    lsColParse (renderMultistatus rs) ep = (true, docEffect rs) := by
  unfold lsColParse renderMultistatus
  rw [lsLoop_multistatus_start]
  rw [lsLoop_responses ep rs _ _ hh rfl rfl]
  rw [show [Token.endElem davNs (cs "multistatus")]
      = Token.endElem davNs (cs "multistatus") :: [] from rfl]
  rw [lsLoop_multistatus_end]
  rw [lsLoop_nil]
  unfold docEffect
  have hmulti : ∀ (rss : List RResponse) (s : LsState),
      s.insidePropstat = false → s.insideProp = false →
      (rss.foldl (fun a r => respEffect r a) s).insideMulti = s.insideMulti := by
    intro rss
    induction rss with
    | nil => intro s _ _; rfl
    | cons r rs2 ih =>
      intro s h1 h2
      have hx := respEffect_flags r s h1 h2
      exact (ih (respEffect r s) hx.1 hx.2.1).trans hx.2.2
  rw [hmulti rs { lsInit with insideMulti := true } rfl rfl]
  rfl

/-! ### Characterization of the published property mappings -/

/-- The property map of one rendered propstat block (working-map inserts in
document order, later duplicates overwriting). -/
def psMap (ps : RPropstat) : PMap :=
  ps.props.foldl (fun m p => pmInsert m p.1 p.2) []

/-- The property map that an emitted entry publishes: the working map of the
last propstat block whose status starts with `HTTP/1.1 200`, or the empty
map when no such block exists. -/
def publishedOf (pss : List RPropstat) : PMap :=
  pss.foldl (fun acc ps =>
    if List.isPrefixOf (cs "HTTP/1.1 200") ps.status then psMap ps else acc) []

theorem propEffect_tmpProps (p : List Char × List Char) (st : LsState) :
    (propEffect p st).tmpProps = pmInsert st.tmpProps p.1 p.2 := by
  unfold propEffect
  repeat' split
  all_goals rfl

theorem foldl_propEffect_tmpProps (props : List (List Char × List Char))
    (st : LsState) :
    (props.foldl (fun s p => propEffect p s) st).tmpProps
      = props.foldl (fun m (p : List Char × List Char) => pmInsert m p.1 p.2)
          st.tmpProps := by
  induction props generalizing st with
  | nil => rfl
  | cons p ps ih =>
    rw [List.foldl_cons, List.foldl_cons, ih (propEffect p st), propEffect_tmpProps]

theorem propstatEffect_http200 (ps : RPropstat) (st : LsState)
    (htmp : st.tmpProps = []) :
    (propstatEffect ps st).http200Props
      = (if List.isPrefixOf (cs "HTTP/1.1 200") ps.status then psMap ps
         else st.http200Props) ∧
    (propstatEffect ps st).tmpProps = [] := by
  refine ⟨?_, rfl⟩
  show (if List.isPrefixOf (cs "HTTP/1.1 200") ps.status
      then (ps.props.foldl (fun s p => propEffect p s)
        { st with insidePropstat := true, insideProp := true }).tmpProps
      else (ps.props.foldl (fun s p => propEffect p s)
        { st with insidePropstat := true, insideProp := true }).http200Props) = _
  rw [foldl_propEffect_tmpProps]
  show (if _ then ps.props.foldl
      (fun m (p : List Char × List Char) => pmInsert m p.1 p.2) st.tmpProps
      else _) = _
  split
  · rw [htmp]; rfl
  · exact (foldl_propEffect_flags ps.props _).2.2.2.2.1

theorem foldl_propstatEffect_http200 (pss : List RPropstat) (st : LsState)
    (htmp : st.tmpProps = []) :
    ((pss.foldl (fun s x => propstatEffect x s) st).http200Props
      = pss.foldl (fun acc ps =>
          if List.isPrefixOf (cs "HTTP/1.1 200") ps.status then psMap ps else acc)
        st.http200Props) ∧
    (pss.foldl (fun s x => propstatEffect x s) st).tmpProps = [] := by
  induction pss generalizing st with
  | nil => exact ⟨rfl, htmp⟩
  | cons x xs ih =>
    have hx := propstatEffect_http200 x st htmp
    have hi := ih (propstatEffect x st) hx.2
    refine ⟨?_, hi.2⟩
    show (xs.foldl (fun s x => propstatEffect x s) (propstatEffect x st)).http200Props = _
    rw [hi.1, hx.1]
    rfl

theorem respEffect_emitted (r : RResponse) (st : LsState)
    (htmp : st.tmpProps = []) (http : st.http200Props = []) :
    (respEffect r st).emitted
      = st.emitted ++ [(chopSlash r.href, publishedOf r.propstats)] ∧
    (respEffect r st).tmpProps = [] ∧
    (respEffect r st).http200Props = [] := by
  have hfold := foldl_propstatEffect_http200 r.propstats
    { st with currentHref := r.href } htmp
  have hflags : ∀ (pss : List RPropstat) (s : LsState),
      ((pss.foldl (fun a x => propstatEffect x a) s).currentHref = s.currentHref ∧
       (pss.foldl (fun a x => propstatEffect x a) s).emitted = s.emitted) := by
    intro pss
    induction pss with
    | nil => intro s; exact ⟨rfl, rfl⟩
    | cons x xs ih =>
      intro s
      have hx := propstatEffect_flags x s
      have hi := ih (propstatEffect x s)
      exact ⟨hi.1.trans hx.2.2.1, hi.2.trans hx.2.2.2.2⟩
  refine ⟨?_, hfold.2, rfl⟩
  show (r.propstats.foldl (fun a x => propstatEffect x a)
      { st with currentHref := r.href }).emitted
      ++ [(chopSlash (r.propstats.foldl (fun a x => propstatEffect x a)
            { st with currentHref := r.href }).currentHref,
           (r.propstats.foldl (fun a x => propstatEffect x a)
            { st with currentHref := r.href }).http200Props)] = _
  rw [(hflags r.propstats _).1, (hflags r.propstats _).2, hfold.1]
  rw [http]
  rfl

theorem docEffect_emitted (rs : List RResponse) :
    (docEffect rs).emitted
      = rs.map (fun r => (chopSlash r.href, publishedOf r.propstats)) := by
  suffices hgen : ∀ (rss : List RResponse) (st : LsState),
      st.tmpProps = [] → st.http200Props = [] →
      (rss.foldl (fun s r => respEffect r s) st).emitted
        = st.emitted ++ rss.map (fun r => (chopSlash r.href, publishedOf r.propstats)) by
    have h0 := hgen rs { lsInit with insideMulti := true } rfl rfl
    unfold docEffect
    rw [h0]
    rfl
  intro rss
  induction rss with
  | nil => intro st _ _; simp
  | cons r rs2 ih =>
    intro st htmp http
    have hr := respEffect_emitted r st htmp http
    show (rs2.foldl (fun s r => respEffect r s) (respEffect r st)).emitted = _
    rw [ih (respEffect r st) hr.2.1 hr.2.2, hr.1]
    simp

/-- The accumulator form of `publishedOf` equals the last 200-status block's
map (overwrite, not merge). -/
theorem publishedOf_eq_last (pss : List RPropstat) :
    publishedOf pss
      = ((pss.filter
          (fun ps => List.isPrefixOf (cs "HTTP/1.1 200") ps.status)).getLast?).elim
          [] psMap := by
  suffices hgen : ∀ (l : List RPropstat) (acc : PMap),
      l.foldl (fun acc ps =>
        if List.isPrefixOf (cs "HTTP/1.1 200") ps.status then psMap ps else acc) acc
      = ((l.filter
          (fun ps => List.isPrefixOf (cs "HTTP/1.1 200") ps.status)).getLast?).elim
          acc psMap by
    exact hgen pss []
  intro l
  induction l with
  | nil => intro acc; rfl
  | cons x xs ih =>
    intro acc
    rw [List.foldl_cons]
    by_cases hx : List.isPrefixOf (cs "HTTP/1.1 200") x.status = true
    · rw [if_pos hx, ih (psMap x)]
      rw [show (x :: xs).filter
            (fun ps => List.isPrefixOf (cs "HTTP/1.1 200") ps.status)
          = x :: xs.filter
            (fun ps => List.isPrefixOf (cs "HTTP/1.1 200") ps.status) from by
        simp [List.filter_cons, hx]]
      rcases hfx : xs.filter (fun ps => List.isPrefixOf (cs "HTTP/1.1 200") ps.status)
        with - | ⟨y, ys⟩
      · rw [hfx]; rfl
      · rw [hfx, List.getLast?_cons_cons]
        rcases hgl : (y :: ys).getLast? with - | z
        · exact absurd hgl (by simp)
        · rfl
    · rw [if_neg hx, ih acc]
      rw [show (x :: xs).filter
            (fun ps => List.isPrefixOf (cs "HTTP/1.1 200") ps.status)
          = xs.filter
            (fun ps => List.isPrefixOf (cs "HTTP/1.1 200") ps.status) from by
        simp [List.filter_cons, hx]]

theorem foldl_respEffect_flags (rss : List RResponse) (st : LsState)
    (hps : st.insidePropstat = false) (hp : st.insideProp = false) :
    ((rss.foldl (fun a r => respEffect r a) st).insidePropstat = false) ∧
    ((rss.foldl (fun a r => respEffect r a) st).insideProp = false) ∧
    ((rss.foldl (fun a r => respEffect r a) st).insideMulti = st.insideMulti) := by
  induction rss generalizing st with
  | nil => exact ⟨hps, hp, rfl⟩
  | cons r rs ih =>
    have hx := respEffect_flags r st hps hp
    have hi := ih (respEffect r st) hx.1 hx.2.1
    exact ⟨hi.1, hi.2.1, hi.2.2.trans hx.2.2⟩

/-! ### Claim theorems -/

/-- C1: for every rendered well-formed multistatus body whose hrefs pass
validation, the parse succeeds and the property mapping published for each
emitted entry is exactly the working map of the last propstat block whose
status text starts with `HTTP/1.1 200` (overwrite, not merge); properties
of non-200 propstat blocks never appear (an entry with no 200 block
publishes the empty mapping). -/
theorem lsColParse_published_http200 (rs : List RResponse) (ep : List Char)
    (hh : ∀ r ∈ rs, ep <+: r.href ∧ '%' ∉ r.href) :
    (lsColParse (renderMultistatus rs) ep).1 = true ∧
    (lsColParse (renderMultistatus rs) ep).2.emitted
      = rs.map (fun r => (chopSlash r.href, publishedOf r.propstats)) ∧
    ∀ pss : List RPropstat,
      publishedOf pss
        = ((pss.filter
            (fun ps => List.isPrefixOf (cs "HTTP/1.1 200") ps.status)).getLast?).elim
            [] psMap := by
  rw [lsColParse_render rs ep hh]
  exact ⟨rfl, docEffect_emitted rs, publishedOf_eq_last⟩

/-- Witness for `lsColParse_published_http200`: a response with a non-200
block and two 200 blocks. -/
theorem lsColParse_published_http200_witness :
    (lsColParse (renderMultistatus
        [⟨cs "/d/x/",
          [⟨[(cs "a", cs "1")], cs "HTTP/1.1 404 Not Found"⟩,
           ⟨[(cs "b", cs "2")], cs "HTTP/1.1 200 OK"⟩,
           ⟨[(cs "b", cs "3"), (cs "c", cs "4")], cs "HTTP/1.1 200 OK"⟩]⟩])
        (cs "/d")).1 = true ∧
    (lsColParse (renderMultistatus
        [⟨cs "/d/x/",
          [⟨[(cs "a", cs "1")], cs "HTTP/1.1 404 Not Found"⟩,
           ⟨[(cs "b", cs "2")], cs "HTTP/1.1 200 OK"⟩,
           ⟨[(cs "b", cs "3"), (cs "c", cs "4")], cs "HTTP/1.1 200 OK"⟩]⟩])
        (cs "/d")).2.emitted
      = ([⟨cs "/d/x/",
          [⟨[(cs "a", cs "1")], cs "HTTP/1.1 404 Not Found"⟩,
           ⟨[(cs "b", cs "2")], cs "HTTP/1.1 200 OK"⟩,
           ⟨[(cs "b", cs "3"), (cs "c", cs "4")], cs "HTTP/1.1 200 OK"⟩]⟩] :
          List RResponse).map
          (fun r => (chopSlash r.href, publishedOf r.propstats)) :=
  ⟨(lsColParse_published_http200 _ (cs "/d") (by decide)).1,
   (lsColParse_published_http200 _ (cs "/d") (by decide)).2.1⟩

/-- C2: a response whose percent-decoded href does not start with the
expected path makes the whole parse fail (`return false`): no entry is
emitted for it or anything after it, while the entries already emitted for
the earlier responses stand. -/
theorem lsColParse_bad_href_fails (good : List RResponse) (bad : RResponse)
    (extra : List Token) (ep : List Char)
    (hh : ∀ r ∈ good, ep <+: r.href ∧ '%' ∉ r.href)
    (hnp : '%' ∉ bad.href) (hbad : ¬ ep <+: bad.href) :
    lsColParse (Token.startElem davNs (cs "multistatus") ::
        (catMap renderResponse good ++ (renderResponse bad ++ extra))) ep
      = (false, docEffect good) ∧
    (docEffect good).emitted
      = good.map (fun r => (chopSlash r.href, publishedOf r.propstats)) := by
  refine ⟨?_, docEffect_emitted good⟩
  unfold lsColParse
  rw [lsLoop_multistatus_start]
  rw [lsLoop_responses ep good _ _ hh rfl rfl]
  rw [show renderResponse bad ++ extra
      = Token.startElem davNs (cs "response") ::
        Token.startElem davNs (cs "href") :: Token.chars bad.href ::
        Token.endElem davNs (cs "href") ::
        ((catMap renderPropstat bad.propstats
          ++ [Token.endElem davNs (cs "response")]) ++ extra) from rfl]
  rw [lsLoop_response_start ep _ _
    (foldl_respEffect_flags good { lsInit with insideMulti := true } rfl rfl).1]
  rw [lsLoop_href_fail ep bad.href _ _
    (by rw [percentDecode_eq_self bad.href hnp]; exact hbad)]
  rfl

/-- Witness for `lsColParse_bad_href_fails`: one good response followed by a
response for a resource outside the queried subtree. -/
theorem lsColParse_bad_href_fails_witness :
    lsColParse (Token.startElem davNs (cs "multistatus") ::
        (catMap renderResponse [⟨cs "/d/x", [⟨[(cs "a", cs "1")], cs "HTTP/1.1 200 OK"⟩]⟩]
          ++ (renderResponse ⟨cs "/evil/y", []⟩ ++ [Token.endElem davNs (cs "multistatus")]))) (cs "/d")
      = (false, docEffect [⟨cs "/d/x", [⟨[(cs "a", cs "1")], cs "HTTP/1.1 200 OK"⟩]⟩]) ∧
    (docEffect [⟨cs "/d/x", [⟨[(cs "a", cs "1")], cs "HTTP/1.1 200 OK"⟩]⟩]).emitted
      = ([⟨cs "/d/x", [⟨[(cs "a", cs "1")], cs "HTTP/1.1 200 OK"⟩]⟩] :
          List RResponse).map
          (fun r => (chopSlash r.href, publishedOf r.propstats)) :=
  lsColParse_bad_href_fails
    [⟨cs "/d/x", [⟨[(cs "a", cs "1")], cs "HTTP/1.1 200 OK"⟩]⟩]
    ⟨cs "/evil/y", []⟩ [Token.endElem davNs (cs "multistatus")] (cs "/d")
    (by decide) (by decide) (by decide)

/-- C7 counterexample: a multistatus body with a non-numeric `size` property
parses successfully (`parse` returns `true`), the malformed entry is still
emitted with the raw text in its property map, and no size is recorded —
the parse does not fail. -/
theorem lsColParse_nonnumeric_size_counterexample :
    (lsColParse (renderMultistatus
        [⟨cs "/d/x", [⟨[(cs "size", cs "4x2")], cs "HTTP/1.1 200 OK"⟩]⟩])
      (cs "/d")).1 = true ∧
    (lsColParse (renderMultistatus
        [⟨cs "/d/x", [⟨[(cs "size", cs "4x2")], cs "HTTP/1.1 200 OK"⟩]⟩])
      (cs "/d")).2.sizes = [] ∧
    (lsColParse (renderMultistatus
        [⟨cs "/d/x", [⟨[(cs "size", cs "4x2")], cs "HTTP/1.1 200 OK"⟩]⟩])
      (cs "/d")).2.emitted = [(cs "/d/x", [(cs "size", cs "4x2")])] := by
  rw [lsColParse_render _ _ (by decide)]
  refine ⟨rfl, by decide, by decide⟩

/-- C7 (amended): a `size` property whose text does not parse as a number
is ignored for the sizes hash — no entry is recorded for the resource, the
parse continues and succeeds, and the entry is still emitted (with the raw
text kept in the published map when its propstat block has status 200). -/
theorem lsColParse_nonnumeric_size_ignored (href sz status ep : List Char)
    (hh : ep <+: href) (hnp : '%' ∉ href) (hnum : toLongLong sz = none) :
    (lsColParse (renderMultistatus [⟨href, [⟨[(cs "size", sz)], status⟩]⟩]) ep).1
      = true ∧
    (lsColParse (renderMultistatus [⟨href, [⟨[(cs "size", sz)], status⟩]⟩]) ep).2.sizes
      = [] ∧
    (lsColParse (renderMultistatus [⟨href, [⟨[(cs "size", sz)], status⟩]⟩]) ep).2.emitted
      = [(chopSlash href,
          if List.isPrefixOf (cs "HTTP/1.1 200") status then [(cs "size", sz)]
          else [])] := by
  rw [lsColParse_render _ _
    (by intro r hr; rw [List.mem_singleton] at hr; subst hr; exact ⟨hh, hnp⟩)]
  refine ⟨rfl, ?_, ?_⟩
  · show (docEffect [⟨href, [⟨[(cs "size", sz)], status⟩]⟩]).sizes = []
    simp [docEffect, respEffect, propstatEffect, propEffect, hnum, lsInit, cs]
  · rw [docEffect_emitted]
    simp only [List.map_cons, List.map_nil, publishedOf, psMap, List.foldl_cons,
      List.foldl_nil, pmInsert, List.filter_nil, List.nil_append]

/-- Witness for `lsColParse_nonnumeric_size_ignored`. -/
theorem lsColParse_nonnumeric_size_ignored_witness :
    (lsColParse (renderMultistatus
        [⟨cs "/d/y", [⟨[(cs "size", cs "big")], cs "HTTP/1.1 200 OK"⟩]⟩])
      (cs "/d")).1 = true ∧
    (lsColParse (renderMultistatus
        [⟨cs "/d/y", [⟨[(cs "size", cs "big")], cs "HTTP/1.1 200 OK"⟩]⟩])
      (cs "/d")).2.sizes = [] ∧
    (lsColParse (renderMultistatus
        [⟨cs "/d/y", [⟨[(cs "size", cs "big")], cs "HTTP/1.1 200 OK"⟩]⟩])
      (cs "/d")).2.emitted
      = [(chopSlash (cs "/d/y"),
          if List.isPrefixOf (cs "HTTP/1.1 200") (cs "HTTP/1.1 200 OK")
          then [(cs "size", cs "big")] else [])] :=
  lsColParse_nonnumeric_size_ignored (cs "/d/y") (cs "big")
    (cs "HTTP/1.1 200 OK") (cs "/d") (by decide) (by decide) (by decide)

/-- C9: folder classification and size recording are not gated on the
propstat status: inside a propstat block whose status is not 200, a
`resourcetype` containing `collection` still appends the (unchopped) href
to the folder list and a numeric `size` still records a sizes entry, while
the published property mapping of the entry stays empty. -/
theorem lsColParse_folders_sizes_not_gated (href rt sz status ep : List Char)
    (n : Int) (hh : ep <+: href) (hnp : '%' ∉ href)
    (hstatus : ¬ List.isPrefixOf (cs "HTTP/1.1 200") status = true)
    (hcoll : cs "collection" <:+: rt) (hnum : toLongLong sz = some n) :
    (lsColParse (renderMultistatus
        [⟨href, [⟨[(cs "resourcetype", rt), (cs "size", sz)], status⟩]⟩]) ep).1
      = true ∧
    (lsColParse (renderMultistatus
        [⟨href, [⟨[(cs "resourcetype", rt), (cs "size", sz)], status⟩]⟩]) ep).2.folders
      = [href] ∧
    (lsColParse (renderMultistatus
        [⟨href, [⟨[(cs "resourcetype", rt), (cs "size", sz)], status⟩]⟩]) ep).2.sizes
      = [(href, n)] ∧
    (lsColParse (renderMultistatus
        [⟨href, [⟨[(cs "resourcetype", rt), (cs "size", sz)], status⟩]⟩]) ep).2.emitted
      = [(chopSlash href, [])] := by
  rw [lsColParse_render _ _
    (by intro r hr; rw [List.mem_singleton] at hr; subst hr; exact ⟨hh, hnp⟩)]
  refine ⟨rfl, ?_, ?_, ?_⟩
  · show (docEffect [⟨href, [⟨[(cs "resourcetype", rt), (cs "size", sz)], status⟩]⟩]).folders
      = [href]
    have hcoll2 : ['c', 'o', 'l', 'l', 'e', 'c', 't', 'i', 'o', 'n'] <:+: rt := hcoll
    simp [docEffect, respEffect, propstatEffect, propEffect, hnum, hcoll2, lsInit,
      hInsert, cs]
  · show (docEffect [⟨href, [⟨[(cs "resourcetype", rt), (cs "size", sz)], status⟩]⟩]).sizes
      = [(href, n)]
    have hcoll2 : ['c', 'o', 'l', 'l', 'e', 'c', 't', 'i', 'o', 'n'] <:+: rt := hcoll
    simp [docEffect, respEffect, propstatEffect, propEffect, hnum, hcoll2, lsInit,
      hInsert, cs]
  · rw [docEffect_emitted]
    simp only [List.map_cons, List.map_nil, publishedOf, psMap, List.foldl_cons,
      List.foldl_nil]
    rw [if_neg hstatus]

/-! ### `ProppatchJob::start` body builder and `PropfindJob::finished` reader
(networkjobs.cpp lines 720–758 and 609–652) -/

/-- The name part after the last colon of a property key
(`keyName.mid(colIdx + 1)` after `lastIndexOf(":")`). -/
def afterLastColon (k : List Char) : List Char :=
  (k.reverse.takeWhile (fun c => c ≠ ':')).reverse

/-- The namespace part before the last colon of a property key
(`keyName.left(colIdx)`). -/
def beforeLastColon (k : List Char) : List Char :=
  k.take (k.length - (afterLastColon k).length - 1)

/-- The element name `ProppatchJob::start` writes for a property key:
the part after the last colon when the key carries a `namespace:` prefix,
the whole key otherwise (`keyName.mid(colIdx + 1)`). -/
def ppKeyName (k : List Char) : List Char :=
  if ':' ∈ k then afterLastColon k else k

/-- The namespace `ProppatchJob::start` extracts from a property key
(`keyName.left(colIdx)`), empty when the key has no colon. -/
def ppKeyNs (k : List Char) : List Char :=
  if ':' ∈ k then beforeLastColon k else []

/-- One property line of the Proppatch body: `    <name>value</name>\n`,
with an `xmlns` attribute when the key carries a `namespace:` prefix
(split at the last colon). -/
def proppatchPropLine (p : List Char × List Char) : List Char :=
  cs "    <" ++ ppKeyName p.1
    ++ (if ppKeyNs p.1 ≠ [] then cs " xmlns=\"" ++ ppKeyNs p.1 ++ cs "\" " else [])
    ++ cs ">" ++ p.2 ++ cs "</" ++ ppKeyName p.1 ++ cs ">\n"

/-- Embedding of the body construction in `ProppatchJob::start`: the fixed
`propertyupdate`/`set`/`prop` skeleton around the serialized property
entries (in map iteration order). -/
def proppatchBody (props : List (List Char × List Char)) : List Char :=
  cs "<?xml version=\"1.0\" ?>\n<d:propertyupdate xmlns:d=\"DAV:\">\n  <d:set><d:prop>\n"
    ++ (props.map proppatchPropLine).flatten
    ++ cs "  </d:prop></d:set>\n</d:propertyupdate>\n"

/-- Embedding of `QXmlStreamReader::readElementText(SkipChildElements)`:
text directly inside the current element is concatenated, child elements
are skipped entirely (their text is not included); running off the end of
the stream raises a reader error. -/
def readElemTextSkip : List Token → Nat → List Char × List Token × Bool
  | [], _ => ([], [], true)
  | Token.chars t :: ts, 0 =>
    let r := readElemTextSkip ts 0
    (t ++ r.1, r.2.1, r.2.2)
  | Token.chars _ :: ts, l + 1 => readElemTextSkip ts (l + 1)
  | Token.startElem _ _ :: ts, l => readElemTextSkip ts (l + 1)
  | Token.endElem _ _ :: ts, 0 => ([], ts, false)
  | Token.endElem _ _ :: ts, l + 1 => readElemTextSkip ts l

theorem readElemTextSkip_length (ts : List Token) (l : Nat) :
    (readElemTextSkip ts l).2.1.length ≤ ts.length := by
  induction ts generalizing l with
  | nil => simp [readElemTextSkip]
  | cons t ts ih =>
    match t, l with
    | Token.chars c, 0 => simpa [readElemTextSkip] using Nat.le_succ_of_le (ih 0)
    | Token.chars c, l + 1 =>
      simpa [readElemTextSkip] using Nat.le_succ_of_le (ih (l + 1))
    | Token.startElem ns n, l =>
      simpa [readElemTextSkip] using Nat.le_succ_of_le (ih (l + 1))
    | Token.endElem ns n, 0 => simp [readElemTextSkip]
    | Token.endElem ns n, l + 1 =>
      simpa [readElemTextSkip] using Nat.le_succ_of_le (ih l)

/-- The parse loop of `PropfindJob::finished` on HTTP 207: a stack of open
element names tracks the position; a start element whose parent (stack top)
is `prop` is a property and is inserted into the map with its skipped-child
element text; any other start element is pushed; an end element matching
the stack top pops it (nesting below two levels is thereby ignored).
Returns the map and the reader error flag. -/
def propfindLoop (ts : List Token) (stack : List (List Char)) (items : PMap) :
    PMap × Bool :=
  match ts with
  | [] => (items, false)
  | Token.startElem _ n :: ts2 =>
    if stack.head? = some (cs "prop") then
      let r := readElemTextSkip ts2 0
      if r.2.2 then (pmInsert items n r.1, true)
      else propfindLoop r.2.1 stack (pmInsert items n r.1)
    else propfindLoop ts2 (n :: stack) items
  | Token.endElem _ n :: ts2 =>
    match stack with
    | [] => propfindLoop ts2 [] items
    | top :: rest =>
      if top = n then propfindLoop ts2 rest items
      else propfindLoop ts2 (top :: rest) items
  | Token.chars _ :: ts2 => propfindLoop ts2 stack items
termination_by ts.length
decreasing_by
  · have := readElemTextSkip_length ts2 0
    simp only [List.length_cons]
    omega
  · simp only [List.length_cons]; omega
  · simp only [List.length_cons]; omega
  · simp only [List.length_cons]; omega
  · simp only [List.length_cons]; omega
  · simp only [List.length_cons]; omega

/-- Embedding of `PropfindJob::finished`: on HTTP 207 the body is parsed
into a property map; a reader error emits `finishedWithError` (embedded as
`none`), as does any non-207 status. -/
def propfindFinished (httpCode : Int) (ts : List Token) : Option PMap :=
  if httpCode = 207 then
    if (propfindLoop ts [] []).2 then none else some (propfindLoop ts [] []).1
  else none

/-- Characters that end an XML tag name. -/
def nameEnd (c : Char) : Bool :=
  c = ' ' ∨ c = '>' ∨ c = '/' ∨ c = '\t' ∨ c = '\n' ∨ c = '\r'

/-- Local part of a qualified XML name (after the first colon). -/
def localName (n : List Char) : List Char :=
  if ':' ∈ n then (n.dropWhile (fun c => c ≠ ':')).drop 1 else n

/-- Skip the rest of a tag: drop up to and including the next `>`. -/
def dropTag (l : List Char) : List Char :=
  (l.dropWhile (fun c => c ≠ '>')).drop 1

/-- Model of the external `QXmlStreamReader` tokenization, restricted to the
documents this layer builds: an optional processing instruction, tags with
optional attributes (no `>` inside attribute values), plain text with no
entity references, and qualified names resolved to their local part (the
namespace URI slot is left empty — `PropfindJob::finished` never consults
it). -/
def xmlTokens : List Char → List Token
  | [] => []
  | c :: rest =>
    if c = '<' then
      if rest.head? = some '?' then xmlTokens (dropTag rest)
      else if rest.head? = some '/' then
        Token.endElem []
          (localName ((rest.drop 1).takeWhile (fun x => !nameEnd x)))
          :: xmlTokens (dropTag rest)
      else
        let body := rest.takeWhile (fun x => x ≠ '>')
        let nm := localName (body.takeWhile (fun x => !nameEnd x))
        if body.getLast? = some '/' then
          Token.startElem [] nm :: Token.endElem [] nm :: xmlTokens (dropTag rest)
        else
          Token.startElem [] nm :: xmlTokens (dropTag rest)
    else
      Token.chars (c :: rest.takeWhile (fun x => x ≠ '<'))
        :: xmlTokens (rest.dropWhile (fun x => x ≠ '<'))
termination_by l => l.length
decreasing_by
  all_goals
    first
    | (have h1 := (List.dropWhile_sublist (l := rest) (fun c => decide (c ≠ '>'))).length_le
       have h2 := List.length_drop 1 (rest.dropWhile (fun c => decide (c ≠ '>')))
       simp only [dropTag, List.length_cons]
       omega)
    | (have h1 := (List.dropWhile_sublist (l := rest) (fun c => decide (c ≠ '<'))).length_le
       simp only [List.length_cons]
       omega)

/-! ### Tokenizer chunk lemmas -/

theorem takeWhile_append_all (p : Char → Bool) (l₁ l₂ : List Char)
    (h : ∀ a ∈ l₁, p a = true) :
    (l₁ ++ l₂).takeWhile p = l₁ ++ l₂.takeWhile p := by
  induction l₁ with
  | nil => rfl
  | cons c cs2 ih =>
    rw [List.cons_append, List.takeWhile_cons, if_pos (h c (List.mem_cons_self _ _)),
      ih (fun a ha => h a (List.mem_cons_of_mem _ ha))]
    rfl

theorem dropWhile_append_all (p : Char → Bool) (l₁ l₂ : List Char)
    (h : ∀ a ∈ l₁, p a = true) :
    (l₁ ++ l₂).dropWhile p = l₂.dropWhile p := by
  induction l₁ with
  | nil => rfl
  | cons c cs2 ih =>
    rw [List.cons_append, List.dropWhile_cons_of_pos (h c (List.mem_cons_self _ _)),
      ih (fun a ha => h a (List.mem_cons_of_mem _ ha))]

theorem takeWhile_all (p : Char → Bool) (l : List Char)
    (h : ∀ a ∈ l, p a = true) : l.takeWhile p = l := by
  have h0 := takeWhile_append_all p l [] h
  simpa using h0

theorem xmlTokens_nil : xmlTokens [] = [] := by
  rw [xmlTokens.eq_def]

/-- Tokenizing a processing instruction (`<?...?>` with no `>` inside). -/
theorem xmlTokens_decl (body rest : List Char) (h : '>' ∉ body) :
    xmlTokens ('<' :: ('?' :: (body ++ '>' :: rest))) = xmlTokens rest := by
  rw [xmlTokens.eq_def]
  dsimp only
  rw [if_pos rfl]
  rw [if_pos (show ('?' :: (body ++ '>' :: rest)).head? = some '?' from rfl)]
  congr 1
  unfold dropTag
  rw [List.dropWhile_cons_of_pos (by decide)]
  rw [dropWhile_append_all _ body _
    (fun a ha => by
      simp only [decide_eq_true_eq]
      intro hc
      exact h (hc ▸ ha))]
  rw [List.dropWhile_cons_of_neg (by simp)]
  rfl

/-- Tokenizing an opening tag: the tag body (name plus optional attributes)
contains no `>` and does not read as a declaration, closing tag or
self-closing tag; the emitted name is the local part of the first word. -/
theorem xmlTokens_openTag (body nm rest : List Char)
    (hne : body ≠ []) (hq : body.head? ≠ some '?') (hs : body.head? ≠ some '/')
    (hgt : '>' ∉ body) (hsl : body.getLast? ≠ some '/')
    (hn : localName (body.takeWhile (fun x => !nameEnd x)) = nm) :
    xmlTokens ('<' :: (body ++ '>' :: rest))
      = Token.startElem [] nm :: xmlTokens rest := by
  have hbody : (body ++ '>' :: rest).takeWhile (fun x => decide (x ≠ '>')) = body := by
    rw [takeWhile_append_all _ body _
      (fun a ha => by
        simp only [decide_eq_true_eq]
        intro hc
        exact hgt (hc ▸ ha))]
    rw [List.takeWhile_cons, if_neg (by simp)]
    simp
  have hdrop : dropTag (body ++ '>' :: rest) = rest := by
    unfold dropTag
    rw [dropWhile_append_all _ body _
      (fun a ha => by
        simp only [decide_eq_true_eq]
        intro hc
        exact hgt (hc ▸ ha))]
    rw [List.dropWhile_cons_of_neg (by simp)]
    rfl
  rw [xmlTokens.eq_def]
  dsimp only
  rw [if_pos rfl]
  rw [if_neg (by rw [List.head?_append_of_ne_nil _ hne]; exact hq)]
  rw [if_neg (by rw [List.head?_append_of_ne_nil _ hne]; exact hs)]
  rw [hbody]
  rw [if_neg hsl]
  rw [hdrop, hn]

/-- Tokenizing a closing tag whose name contains only name characters. -/
theorem xmlTokens_closeTag (body nm rest : List Char)
    (hb : ∀ c ∈ body, nameEnd c = false)
    (hn : localName body = nm) :
    xmlTokens ('<' :: ('/' :: (body ++ '>' :: rest)))
      = Token.endElem [] nm :: xmlTokens rest := by
  rw [xmlTokens.eq_def]
  dsimp only
  rw [if_pos rfl]
  rw [if_neg (by simp)]
  rw [if_pos (by simp)]
  have htake : (body ++ '>' :: rest).takeWhile (fun x => !nameEnd x) = body := by
    rw [takeWhile_append_all _ body _ (fun a ha => by rw [hb a ha]; rfl)]
    rw [List.takeWhile_cons, if_neg (by simp [nameEnd])]
    simp
  have hdrop : dropTag ('/' :: (body ++ '>' :: rest)) = rest := by
    unfold dropTag
    rw [List.dropWhile_cons_of_pos (by decide)]
    rw [dropWhile_append_all _ body _
      (fun a ha => by
        have hbc := hb a ha
        simp only [decide_eq_true_eq]
        intro hc
        rw [hc] at hbc
        simp [nameEnd] at hbc)]
    rw [List.dropWhile_cons_of_neg (by simp)]
    rfl
  rw [show ('/' :: (body ++ '>' :: rest)).drop 1 = body ++ '>' :: rest from rfl]
  rw [htake, hn, hdrop]

/-- Tokenizing a text run up to the next tag. -/
theorem xmlTokens_text (c : Char) (t rest : List Char)
    (hc : c ≠ '<') (ht : '<' ∉ t) :
    xmlTokens (c :: (t ++ '<' :: rest))
      = Token.chars (c :: t) :: xmlTokens ('<' :: rest) := by
  rw [xmlTokens.eq_def]
  dsimp only
  rw [if_neg hc]
  rw [takeWhile_append_all _ t _
    (fun a ha => by
      simp only [decide_eq_true_eq]
      intro hx
      exact ht (hx ▸ ha))]
  rw [List.takeWhile_cons, if_neg (by simp)]
  rw [dropWhile_append_all _ t _
    (fun a ha => by
      simp only [decide_eq_true_eq]
      intro hx
      exact ht (hx ▸ ha))]
  rw [List.dropWhile_cons_of_neg (by simp)]
  simp

/-- Tokenizing a trailing text run at the end of the document. -/
theorem xmlTokens_text_eof (c : Char) (t : List Char)
    (hc : c ≠ '<') (ht : '<' ∉ t) :
    xmlTokens (c :: t) = [Token.chars (c :: t)] := by
  rw [xmlTokens.eq_def]
  dsimp only
  rw [if_neg hc]
  rw [takeWhile_all _ t (fun a ha => by
    simp only [decide_eq_true_eq]
    intro hx
    exact ht (hx ▸ ha))]
  rw [show t.dropWhile (fun x => decide (x ≠ '<')) = [] from by
    rw [List.dropWhile_eq_nil_iff]
    intro x hx
    simp only [decide_eq_true_eq]
    intro hc2
    exact ht (hc2 ▸ hx)]
  rw [xmlTokens_nil]

/-! ### Tokenizing and re-reading the Proppatch body -/

/-- Characters allowed in a written property element name: no whitespace or
tag delimiters (`nameEnd`), no colon, no `?`, no `<`. -/
def nameChar (c : Char) : Bool :=
  !nameEnd c && c ≠ ':' && c ≠ '?' && c ≠ '<'

/-- Token stream of the serialized property lines followed by the closing
`</d:prop></d:set></d:propertyupdate>` skeleton of the Proppatch body. -/
def propLineTokens : List (List Char × List Char) → List Token
  | [] =>
    [Token.chars (cs "\n  "), Token.endElem [] (cs "prop"),
     Token.endElem [] (cs "set"), Token.chars (cs "\n"),
     Token.endElem [] (cs "propertyupdate"), Token.chars (cs "\n")]
  | p :: ps =>
    Token.chars (cs "\n    ") :: Token.startElem [] (ppKeyName p.1) ::
      ((if p.2 = [] then [] else [Token.chars p.2]) ++
        (Token.endElem [] (ppKeyName p.1) :: propLineTokens ps))

theorem nameChar_spec (c : Char) (h : nameChar c = true) :
    nameEnd c = false ∧ c ≠ ':' ∧ c ≠ '?' ∧ c ≠ '<' := by
  simp only [nameChar, Bool.and_eq_true, Bool.not_eq_true', decide_eq_true_eq] at h
  exact ⟨h.1.1.1, h.1.1.2, h.1.2, h.2⟩

theorem nameEnd_false_spec (c : Char) (h : nameEnd c = false) :
    c ≠ ' ' ∧ c ≠ '>' ∧ c ≠ '/' := by
  simp only [nameEnd, decide_eq_false_iff_not, not_or] at h
  exact ⟨h.1, h.2.1, h.2.2.1⟩

theorem localName_of_nameChar (A : List Char)
    (hA : ∀ c ∈ A, nameChar c = true) : localName A = A := by
  simp only [localName]
  rw [if_neg (fun hmem => (nameChar_spec _ (hA _ hmem)).2.1 rfl)]

/-- Shape facts about an opening-tag body `name ++ attributes` as written by
`ProppatchJob::start`, feeding the opening-tag tokenization lemma. -/
theorem ppOpenTagBody_facts (A ns T : List Char) (hne : A ≠ [])
    (hA : ∀ c ∈ A, nameChar c = true)
    (hT : T = [] ∨ T = cs " xmlns=\"" ++ ns ++ cs "\" ")
    (hns : '>' ∉ ns) :
    A ++ T ≠ [] ∧ (A ++ T).head? ≠ some '?' ∧ (A ++ T).head? ≠ some '/'
      ∧ '>' ∉ A ++ T ∧ (A ++ T).getLast? ≠ some '/'
      ∧ localName ((A ++ T).takeWhile (fun x => !nameEnd x)) = A := by
  obtain ⟨a, as, rfl⟩ : ∃ a as, A = a :: as := by
    cases A with
    | nil => exact absurd rfl hne
    | cons a as => exact ⟨a, as, rfl⟩
  have hna := nameChar_spec a (hA a (List.mem_cons_self _ _))
  have hnend := nameEnd_false_spec a hna.1
  refine ⟨by simp, ?_, ?_, ?_, ?_, ?_⟩
  · simp only [List.cons_append, List.head?_cons]
    intro hc
    injection hc with hc2
    exact hna.2.2.1 hc2
  · simp only [List.cons_append, List.head?_cons]
    intro hc
    injection hc with hc2
    exact hnend.2.2 hc2
  · intro hmem
    rw [List.mem_append] at hmem
    rcases hmem with hmem | hmem
    · exact (nameEnd_false_spec _ (nameChar_spec _ (hA _ hmem)).1).2.1 rfl
    · rcases hT with rfl | rfl
      · simp at hmem
      · rw [List.mem_append] at hmem
        rcases hmem with hmem | hmem
        · rw [List.mem_append] at hmem
          rcases hmem with hmem | hmem
          · revert hmem; decide
          · exact hns hmem
        · revert hmem; decide
  · rcases hT with rfl | rfl
    · rw [List.append_nil]
      intro hc
      obtain ⟨h9, h10⟩ := List.mem_getLast?_eq_getLast
        (show '/' ∈ (a :: as).getLast? from hc)
      have hmem : '/' ∈ a :: as := by rw [h10]; exact List.getLast_mem h9
      exact (nameEnd_false_spec _ (nameChar_spec _ (hA _ hmem)).1).2.2 rfl
    · intro hc
      rw [show cs " xmlns=\"" ++ ns ++ cs "\" " = cs " xmlns=\"" ++ (ns ++ ['"', ' '])
          from by rw [List.append_assoc]; rfl] at hc
      rw [List.getLast?_append_of_ne_nil (a :: as)
          (show cs " xmlns=\"" ++ (ns ++ ['"', ' ']) ≠ [] from
            fun hcc => absurd (List.append_eq_nil.mp hcc).1 (by decide))] at hc
      rw [List.getLast?_append_of_ne_nil (cs " xmlns=\"")
          (show ns ++ ['"', ' '] ≠ [] from
            fun hcc => absurd (List.append_eq_nil.mp hcc).2 (by decide))] at hc
      rw [List.getLast?_append_of_ne_nil ns
          (show (['"', ' '] : List Char) ≠ [] from by decide)] at hc
      revert hc; decide
  · rw [takeWhile_append_all _ _ _ (fun c hc => by
      have h11 := (nameChar_spec c (hA c hc)).1
      simp [h11])]
    rcases hT with rfl | rfl
    · rw [List.takeWhile_nil, List.append_nil]
      exact localName_of_nameChar _ hA
    · have htw : (cs " xmlns=\"" ++ ns ++ cs "\" ").takeWhile (fun x => !nameEnd x)
          = [] := by
        show ((' ' :: (cs "xmlns=\"" ++ ns ++ cs "\" ")).takeWhile
          (fun x => !nameEnd x)) = []
        rw [List.takeWhile_cons, if_neg (by decide)]
      rw [htw, List.append_nil]
      exact localName_of_nameChar _ hA

/-- Tokenization of the serialized property lines plus the closing skeleton,
preceded by the newline that ends the previous line of the Proppatch body. -/
theorem xmlTokens_propLines (ps : List (List Char × List Char))
    (hk : ∀ p ∈ ps, ppKeyName p.1 ≠ [] ∧ (∀ c ∈ ppKeyName p.1, nameChar c = true)
      ∧ '>' ∉ ppKeyNs p.1)
    (hv : ∀ p ∈ ps, '<' ∉ p.2) :
    xmlTokens ('\n' :: ((ps.map proppatchPropLine).flatten
        ++ cs "  </d:prop></d:set>\n</d:propertyupdate>\n"))
      = propLineTokens ps := by
  induction ps with
  | nil =>
    simp only [List.map_nil, List.flatten_nil, List.nil_append]
    rw [show ('\n' :: cs "  </d:prop></d:set>\n</d:propertyupdate>\n")
        = '\n' :: (cs "  " ++ '<' :: ('/' :: (cs "d:prop" ++ '>' ::
            ('<' :: ('/' :: (cs "d:set" ++ '>' ::
              ('\n' :: ([] ++ '<' :: ('/' :: (cs "d:propertyupdate" ++ '>' ::
                ('\n' :: ([] : List Char))))))))))))
      from by decide]
    rw [xmlTokens_text '\n' (cs "  ") _ (by decide) (by decide)]
    rw [xmlTokens_closeTag (cs "d:prop") (cs "prop") _ (by decide) (by decide)]
    rw [xmlTokens_closeTag (cs "d:set") (cs "set") _ (by decide) (by decide)]
    rw [xmlTokens_text '\n' [] _ (by decide) (by decide)]
    rw [xmlTokens_closeTag (cs "d:propertyupdate") (cs "propertyupdate") _
      (by decide) (by decide)]
    rw [xmlTokens_text_eof '\n' [] (by decide) (by decide)]
    rfl
  | cons p ps ih =>
    have hk1 := hk p (List.mem_cons_self _ _)
    have hv1 := hv p (List.mem_cons_self _ _)
    have hT : (if ppKeyNs p.1 ≠ [] then cs " xmlns=\"" ++ ppKeyNs p.1 ++ cs "\" "
          else ([] : List Char)) = []
        ∨ (if ppKeyNs p.1 ≠ [] then cs " xmlns=\"" ++ ppKeyNs p.1 ++ cs "\" "
          else ([] : List Char)) = cs " xmlns=\"" ++ ppKeyNs p.1 ++ cs "\" " := by
      by_cases hns : ppKeyNs p.1 = []
      · left; exact if_neg (fun hc => hc hns)
      · right; exact if_pos hns
    obtain ⟨hne, hq, hs, hgt, hsl, hn⟩ :=
      ppOpenTagBody_facts (ppKeyName p.1) (ppKeyNs p.1)
        (if ppKeyNs p.1 ≠ [] then cs " xmlns=\"" ++ ppKeyNs p.1 ++ cs "\" " else [])
        hk1.1 hk1.2.1 hT hk1.2.2
    rw [List.map_cons, List.flatten_cons, List.append_assoc]
    rw [show proppatchPropLine p ++ ((List.map proppatchPropLine ps).flatten
          ++ cs "  </d:prop></d:set>\n</d:propertyupdate>\n")
        = cs "    " ++ '<' :: ((ppKeyName p.1
            ++ (if ppKeyNs p.1 ≠ [] then cs " xmlns=\"" ++ ppKeyNs p.1 ++ cs "\" "
              else [])) ++ '>' ::
          (p.2 ++ '<' :: '/' :: (ppKeyName p.1 ++ '>' :: '\n' ::
            ((List.map proppatchPropLine ps).flatten
              ++ cs "  </d:prop></d:set>\n</d:propertyupdate>\n"))))
      from by simp only [proppatchPropLine, List.append_assoc]; rfl]
    rw [xmlTokens_text '\n' (cs "    ") _ (by decide) (by decide)]
    rw [xmlTokens_openTag _ _ _ hne hq hs hgt hsl hn]
    cases hv2 : p.2 with
    | nil =>
      rw [List.nil_append]
      rw [xmlTokens_closeTag _ _ _ (fun c hc => (nameChar_spec c (hk1.2.1 c hc)).1)
        (localName_of_nameChar _ hk1.2.1)]
      rw [ih (fun q hq2 => hk q (List.mem_cons_of_mem _ hq2))
        (fun q hq2 => hv q (List.mem_cons_of_mem _ hq2))]
      simp only [propLineTokens, hv2]
      rfl
    | cons c0 t0 =>
      have hlt : '<' ∉ (c0 :: t0 : List Char) := hv2 ▸ hv1
      rw [List.cons_append]
      rw [xmlTokens_text c0 t0 _
        (fun hc => hlt (by rw [hc]; exact List.mem_cons_self _ _))
        (fun hc => hlt (List.mem_cons_of_mem _ hc))]
      rw [xmlTokens_closeTag _ _ _ (fun c hc => (nameChar_spec c (hk1.2.1 c hc)).1)
        (localName_of_nameChar _ hk1.2.1)]
      rw [ih (fun q hq2 => hk q (List.mem_cons_of_mem _ hq2))
        (fun q hq2 => hv q (List.mem_cons_of_mem _ hq2))]
      simp only [propLineTokens, hv2]
      rfl

/-- Tokenization of the full Proppatch body. -/
theorem xmlTokens_proppatchBody (ps : List (List Char × List Char))
    (hk : ∀ p ∈ ps, ppKeyName p.1 ≠ [] ∧ (∀ c ∈ ppKeyName p.1, nameChar c = true)
      ∧ '>' ∉ ppKeyNs p.1)
    (hv : ∀ p ∈ ps, '<' ∉ p.2) :
    xmlTokens (proppatchBody ps)
      = Token.chars (cs "\n") :: Token.startElem [] (cs "propertyupdate")
        :: Token.chars (cs "\n  ") :: Token.startElem [] (cs "set")
        :: Token.startElem [] (cs "prop") :: propLineTokens ps := by
  rw [show proppatchBody ps
      = '<' :: '?' :: (cs "xml version=\"1.0\" ?" ++ '>' ::
        ('\n' :: ([] ++ '<' :: (cs "d:propertyupdate xmlns:d=\"DAV:\"" ++ '>' ::
          ('\n' :: (cs "  " ++ '<' :: (cs "d:set" ++ '>' ::
            ('<' :: (cs "d:prop" ++ '>' ::
              ('\n' :: ((ps.map proppatchPropLine).flatten
                ++ cs "  </d:prop></d:set>\n</d:propertyupdate>\n")))))))))))
    from by simp only [proppatchBody, List.append_assoc]; rfl]
  rw [xmlTokens_decl _ _ (by decide)]
  rw [xmlTokens_text '\n' [] _ (by decide) (by decide)]
  rw [xmlTokens_openTag (cs "d:propertyupdate xmlns:d=\"DAV:\"") (cs "propertyupdate")
    _ (by decide) (by decide) (by decide) (by decide) (by decide) (by decide)]
  rw [xmlTokens_text '\n' (cs "  ") _ (by decide) (by decide)]
  rw [xmlTokens_openTag (cs "d:set") (cs "set") _
    (by decide) (by decide) (by decide) (by decide) (by decide) (by decide)]
  rw [xmlTokens_openTag (cs "d:prop") (cs "prop") _
    (by decide) (by decide) (by decide) (by decide) (by decide) (by decide)]
  rw [xmlTokens_propLines ps hk hv]
  rfl

/-! ### Stepping the Propfind reader over the Proppatch tokens -/

theorem propfindLoop_chars (t : List Char) (ts : List Token)
    (stack : List (List Char)) (items : PMap) :
    propfindLoop (Token.chars t :: ts) stack items
      = propfindLoop ts stack items := by
  rw [propfindLoop.eq_def]

theorem propfindLoop_push (ns n : List Char) (ts : List Token)
    (stack : List (List Char)) (items : PMap)
    (h : stack.head? ≠ some (cs "prop")) :
    propfindLoop (Token.startElem ns n :: ts) stack items
      = propfindLoop ts (n :: stack) items := by
  rw [propfindLoop.eq_def]
  dsimp only
  rw [if_neg h]

theorem propfindLoop_pop (ns n : List Char) (ts : List Token) (top : List Char)
    (stack : List (List Char)) (items : PMap) (h : top = n) :
    propfindLoop (Token.endElem ns n :: ts) (top :: stack) items
      = propfindLoop ts stack items := by
  rw [propfindLoop.eq_def]
  dsimp only
  rw [if_pos h]

theorem propfindLoop_propElem (ns n v : List Char) (ts : List Token)
    (stack : List (List Char)) (items : PMap)
    (h : stack.head? = some (cs "prop")) :
    propfindLoop (Token.startElem ns n :: ((if v = [] then [] else [Token.chars v])
        ++ (Token.endElem ns n :: ts))) stack items
      = propfindLoop ts stack (pmInsert items n v) := by
  rw [propfindLoop.eq_def]
  dsimp only
  rw [if_pos h]
  cases v with
  | nil =>
    rw [if_pos rfl, List.nil_append]
    have hre : readElemTextSkip (Token.endElem ns n :: ts) 0 = ([], ts, false) := rfl
    rw [hre]
    rfl
  | cons c t =>
    rw [if_neg (show ¬((c :: t : List Char) = []) from by simp)]
    have hre : readElemTextSkip ([Token.chars (c :: t)]
        ++ (Token.endElem ns n :: ts)) 0 = ((c :: t) ++ [], ts, false) := rfl
    rw [hre]
    simp only [List.append_nil]
    rfl

/-- Running the Propfind reader over the property-line tokens with the
`prop`/`set`/`propertyupdate` elements open folds the property insertions
over the starting map and succeeds. -/
theorem propfindLoop_lines (ps : List (List Char × List Char)) (items : PMap) :
    propfindLoop (propLineTokens ps) [cs "prop", cs "set", cs "propertyupdate"] items
      = (ps.foldl (fun (m : PMap) (p : List Char × List Char) =>
          pmInsert m (ppKeyName p.1) p.2) items, false) := by
  induction ps generalizing items with
  | nil =>
    simp only [propLineTokens]
    rw [propfindLoop_chars, propfindLoop_pop _ _ _ _ _ _ rfl,
      propfindLoop_pop _ _ _ _ _ _ rfl, propfindLoop_chars,
      propfindLoop_pop _ _ _ _ _ _ rfl, propfindLoop_chars]
    rw [propfindLoop.eq_def]
    rfl
  | cons p ps ih =>
    simp only [propLineTokens]
    rw [propfindLoop_chars,
      propfindLoop_propElem _ _ _ _ [cs "prop", cs "set", cs "propertyupdate"] _ rfl,
      ih, List.foldl_cons]

/-- Re-parsing the tokenized Proppatch body with `PropfindJob::finished`
yields the fold of the property insertions under the written element names. -/
theorem propfind_reads_proppatch (ps : List (List Char × List Char))
    (hk : ∀ p ∈ ps, ppKeyName p.1 ≠ [] ∧ (∀ c ∈ ppKeyName p.1, nameChar c = true)
      ∧ '>' ∉ ppKeyNs p.1)
    (hv : ∀ p ∈ ps, '<' ∉ p.2) :
    propfindFinished 207 (xmlTokens (proppatchBody ps))
      = some (ps.foldl (fun (m : PMap) (p : List Char × List Char) =>
          pmInsert m (ppKeyName p.1) p.2) []) := by
  rw [xmlTokens_proppatchBody ps hk hv]
  unfold propfindFinished
  rw [if_pos rfl]
  rw [propfindLoop_chars, propfindLoop_push _ _ _ _ _ (by decide),
    propfindLoop_chars, propfindLoop_push _ _ _ _ _ (by decide),
    propfindLoop_push _ _ _ _ _ (by decide), propfindLoop_lines]
  rfl

/-- Folding overwrite-inserts of pairwise-fresh keys over a map appends the
entries in order. -/
theorem foldl_pmInsert_fresh (ps : List (List Char × List Char)) :
    ∀ acc : PMap, (∀ p ∈ ps, ∀ q ∈ acc, q.1 ≠ p.1)
      → (ps.map Prod.fst).Nodup
      → ps.foldl (fun (m : PMap) (p : List Char × List Char) =>
          pmInsert m p.1 p.2) acc = acc ++ ps := by
  induction ps with
  | nil => intro acc _ _; simp
  | cons p ps ih =>
    intro acc hd hnd
    rw [List.foldl_cons]
    have hins : pmInsert acc p.1 p.2 = acc ++ [p] := by
      unfold pmInsert
      rw [List.filter_eq_self.mpr (fun q hq => by
        simp only [decide_eq_true_eq]
        exact hd p (List.mem_cons_self _ _) q hq)]
    have hfresh : ∀ q ∈ ps, ∀ r ∈ acc ++ [p], r.1 ≠ q.1 := by
      intro q hq r hr
      rw [List.mem_append] at hr
      rcases hr with hr | hr
      · exact hd q (List.mem_cons_of_mem _ hq) r hr
      · have hrp : r = p := by simpa using hr
        subst hrp
        rw [List.map_cons, List.nodup_cons] at hnd
        intro hc
        exact hnd.1 (by rw [hc]; exact List.mem_map_of_mem Prod.fst hq)
    have hnd2 : (ps.map Prod.fst).Nodup := by
      rw [List.map_cons, List.nodup_cons] at hnd
      exact hnd.2
    rw [hins, ih (acc ++ [p]) hfresh hnd2, List.append_assoc]
    rfl


/-- C8: the Proppatch/Propfind round-trip fails for some property maps: a
key with a `namespace:` prefix is written as its post-colon element name
(with an `xmlns` attribute) and is read back under that shortened name, so
the key `oc:share` comes back as `share`. -/
theorem proppatch_propfind_roundtrip_counterexample :
    propfindFinished 207 (xmlTokens (proppatchBody [(cs "oc:share", cs "1")]))
      = some [(cs "share", cs "1")]
      ∧ some [(cs "share", cs "1")] ≠ some [(cs "oc:share", cs "1")] := by
  constructor
  · rw [propfind_reads_proppatch _ (by decide) (by decide)]
    decide
  · decide

/-- C8 (amended): for property maps whose keys are nonempty colon-free XML
name tokens, pairwise distinct, and whose values contain no `<`, building
the Proppatch body and re-parsing it with the Propfind single-level `prop`
reader recovers exactly the original key/value pairs. -/
theorem proppatch_propfind_roundtrip (props : List (List Char × List Char))
    (hk : ∀ p ∈ props, p.1 ≠ [] ∧ ∀ c ∈ p.1, nameChar c = true)
    (hv : ∀ p ∈ props, '<' ∉ p.2)
    (hnd : (props.map Prod.fst).Nodup) :
    propfindFinished 207 (xmlTokens (proppatchBody props)) = some props := by
  have hkey : ∀ p ∈ props, ppKeyName p.1 = p.1 := by
    intro p hp
    unfold ppKeyName
    rw [if_neg (fun hmem => (nameChar_spec _ ((hk p hp).2 _ hmem)).2.1 rfl)]
  have hns : ∀ p ∈ props, ppKeyNs p.1 = [] := by
    intro p hp
    unfold ppKeyNs
    rw [if_neg (fun hmem => (nameChar_spec _ ((hk p hp).2 _ hmem)).2.1 rfl)]
  rw [propfind_reads_proppatch props
    (fun p hp => by
      rw [hkey p hp, hns p hp]
      exact ⟨(hk p hp).1, (hk p hp).2, by simp⟩) hv]
  have hfold : props.foldl (fun (m : PMap) (p : List Char × List Char) =>
        pmInsert m (ppKeyName p.1) p.2) []
      = props.foldl (fun (m : PMap) (p : List Char × List Char) =>
        pmInsert m p.1 p.2) [] :=
    List.foldl_ext _ _ _ (fun m p hp => by rw [hkey p hp])
  rw [hfold,
    foldl_pmInsert_fresh props [] (fun p hp q hq => absurd hq (List.not_mem_nil q))
      hnd]
  rfl

theorem proppatch_propfind_roundtrip_witness :
    propfindFinished 207 (xmlTokens (proppatchBody
        [(cs "sharetype", cs "1"), (cs "expiration", cs "2030-01-01")]))
      = some [(cs "sharetype", cs "1"), (cs "expiration", cs "2030-01-01")] :=
  proppatch_propfind_roundtrip _ (by decide) (by decide) (by decide)


/-! ### `RequestEtagJob::finished` (networkjobs.cpp lines 103–135) -/

/-- The etag-accumulation loop of `RequestEtagJob::finished` on HTTP 207:
for every `getetag` start element in the `DAV:` namespace, the element text
is read, normalized with `parseEtag`, and the normalized tag (or, when the
normalization comes back empty, the raw text) is appended to the
accumulated etag; all other tokens are skipped.  A reader error inside
`readElementText` ends the loop with the etag accumulated so far (the
source does not check `hasError` on this path). -/
def etagLoop : List Token → List Char
  | [] => []
  | Token.startElem ns n :: ts =>
    if ns = davNs ∧ n = cs "getetag" then
      let r := readElemText ts
      let piece := if parseEtag r.1 ≠ [] then parseEtag r.1 else r.1
      if r.2.2 then piece else piece ++ etagLoop r.2.1
    else etagLoop ts
  | Token.endElem _ _ :: ts => etagLoop ts
  | Token.chars _ :: ts => etagLoop ts
termination_by ts => ts.length
decreasing_by
  all_goals
    first
    | (simp only [List.length_cons]; omega)
    | (simp only [List.length_cons]
       exact Nat.lt_succ_of_le (readElemText_length _))

/-- Embedding of `RequestEtagJob::finished`: on HTTP 207 the accumulated
etag is emitted (`etagRetreived` / `finishedWithResult`); on any other
status an `HttpError` result is emitted instead (embedded as `none`). -/
def requestEtagFinished (httpCode : Int) (ts : List Token) : Option (List Char) :=
  if httpCode = 207 then some (etagLoop ts) else none

/-- One item of a rendered PROPFIND response body for the etag job: a
`getetag` element in the `DAV:` namespace with text content, some other
element with text content, or a lone opening/closing tag (for surrounding
structure such as `multistatus`/`response`/`propstat`). -/
inductive EItem where
  | etagElem (text : List Char) : EItem
  | otherElem (ns name text : List Char) : EItem
  | openTag (ns name : List Char) : EItem
  | closeTag (ns name : List Char) : EItem
deriving Repr, DecidableEq

/-- Token render of one `EItem`. -/
def renderEItem : EItem → List Token
  | EItem.etagElem t =>
    [Token.startElem davNs (cs "getetag"), Token.chars t,
     Token.endElem davNs (cs "getetag")]
  | EItem.otherElem ns n t => [Token.startElem ns n, Token.chars t, Token.endElem ns n]
  | EItem.openTag ns n => [Token.startElem ns n]
  | EItem.closeTag ns n => [Token.endElem ns n]

/-- An item other than an explicit `getetag` element must not itself open a
`DAV: getetag` element. -/
def eItemOk : EItem → Prop
  | EItem.etagElem _ => True
  | EItem.otherElem ns n _ => ¬ (ns = davNs ∧ n = cs "getetag")
  | EItem.openTag ns n => ¬ (ns = davNs ∧ n = cs "getetag")
  | EItem.closeTag _ _ => True

instance : DecidablePred eItemOk := by
  intro it
  unfold eItemOk
  match it with
  | EItem.etagElem _ => exact inferInstance
  | EItem.otherElem ns n _ => exact inferInstance
  | EItem.openTag ns n => exact inferInstance
  | EItem.closeTag _ _ => exact inferInstance

/-- The texts of the `getetag` elements of an item list, in document order. -/
def etagTexts : List EItem → List (List Char)
  | [] => []
  | EItem.etagElem t :: its => t :: etagTexts its
  | _ :: its => etagTexts its

theorem etagLoop_render (items : List EItem) (h : ∀ it ∈ items, eItemOk it) :
    etagLoop (catMap renderEItem items)
      = ((etagTexts items).map
          (fun t => if parseEtag t ≠ [] then parseEtag t else t)).flatten := by
  induction items with
  | nil =>
    rw [show catMap renderEItem ([] : List EItem) = [] from rfl, etagLoop.eq_def]
    rfl
  | cons it its ih =>
    have hits := fun x hx => h x (List.mem_cons_of_mem it hx)
    have hit := h it (List.mem_cons_self it its)
    match it with
    | EItem.etagElem t =>
      show etagLoop (Token.startElem davNs (cs "getetag") :: Token.chars t ::
          Token.endElem davNs (cs "getetag") :: catMap renderEItem its) = _
      rw [etagLoop.eq_def]
      dsimp only
      rw [if_pos ⟨rfl, rfl⟩]
      have hre : readElemText (Token.chars t ::
          Token.endElem davNs (cs "getetag") :: catMap renderEItem its)
          = (t ++ [], catMap renderEItem its, false) := rfl
      rw [hre]
      simp only [List.append_nil]
      rw [if_neg Bool.false_ne_true, ih hits]
      rfl
    | EItem.otherElem ns n t =>
      show etagLoop (Token.startElem ns n :: Token.chars t ::
          Token.endElem ns n :: catMap renderEItem its) = _
      rw [etagLoop.eq_def]
      dsimp only
      rw [if_neg hit]
      rw [show etagLoop (Token.chars t :: Token.endElem ns n :: catMap renderEItem its)
          = etagLoop (Token.endElem ns n :: catMap renderEItem its) from by
        rw [etagLoop.eq_def]]
      rw [show etagLoop (Token.endElem ns n :: catMap renderEItem its)
          = etagLoop (catMap renderEItem its) from by rw [etagLoop.eq_def]]
      exact ih hits
    | EItem.openTag ns n =>
      show etagLoop (Token.startElem ns n :: catMap renderEItem its) = _
      rw [etagLoop.eq_def]
      dsimp only
      rw [if_neg hit]
      exact ih hits
    | EItem.closeTag ns n =>
      show etagLoop (Token.endElem ns n :: catMap renderEItem its) = _
      rw [etagLoop.eq_def]
      dsimp only
      exact ih hits

/-- C10: on an HTTP 207 reply, the emitted etag is the concatenation, in
document order over all `DAV: getetag` elements, of the normalized tag when
normalization yields a non-empty result and of the raw element text
otherwise; several `getetag` elements concatenate and a body with none
yields the empty string. -/
theorem requestEtag_etag_concat (items : List EItem) (httpCode : Int)
    (h : ∀ it ∈ items, eItemOk it) :
    requestEtagFinished 207 (catMap renderEItem items)
      = some (((etagTexts items).map
          (fun t => if parseEtag t ≠ [] then parseEtag t else t)).flatten) ∧
    (httpCode ≠ 207 → requestEtagFinished httpCode (catMap renderEItem items) = none) := by
  constructor
  · unfold requestEtagFinished
    rw [if_pos rfl, etagLoop_render items h]
  · intro hc
    unfold requestEtagFinished
    rw [if_neg hc]

/-- Witness for `requestEtag_etag_concat`: a multistatus-shaped body with
two `getetag` elements (one weak/gzip-damaged, one raw). -/
theorem requestEtag_etag_concat_witness :
    requestEtagFinished 207 (catMap renderEItem
      [EItem.openTag davNs (cs "multistatus"),
       EItem.openTag davNs (cs "response"),
       EItem.otherElem davNs (cs "href") (cs "/d/x"),
       EItem.etagElem (cs "W/\"abc-gzip\""),
       EItem.etagElem (cs "xyz"),
       EItem.closeTag davNs (cs "response"),
       EItem.closeTag davNs (cs "multistatus")])
      = some (((etagTexts
          [EItem.openTag davNs (cs "multistatus"),
           EItem.openTag davNs (cs "response"),
           EItem.otherElem davNs (cs "href") (cs "/d/x"),
           EItem.etagElem (cs "W/\"abc-gzip\""),
           EItem.etagElem (cs "xyz"),
           EItem.closeTag davNs (cs "response"),
           EItem.closeTag davNs (cs "multistatus")]).map
          (fun t => if parseEtag t ≠ [] then parseEtag t else t)).flatten) ∧
    requestEtagFinished 200 (catMap renderEItem
      [EItem.openTag davNs (cs "multistatus"),
       EItem.openTag davNs (cs "response"),
       EItem.otherElem davNs (cs "href") (cs "/d/x"),
       EItem.etagElem (cs "W/\"abc-gzip\""),
       EItem.etagElem (cs "xyz"),
       EItem.closeTag davNs (cs "response"),
       EItem.closeTag davNs (cs "multistatus")]) = none :=
  ⟨(requestEtag_etag_concat _ 200 (by decide)).1,
   (requestEtag_etag_concat _ 200 (by decide)).2 (by decide)⟩

/-- Witness for `lsColParse_folders_sizes_not_gated`. -/
theorem lsColParse_folders_sizes_not_gated_witness :
    (lsColParse (renderMultistatus
        [⟨cs "/d/f/",
          [⟨[(cs "resourcetype", cs "<collection></collection>"), (cs "size", cs "7")],
            cs "HTTP/1.1 403 Forbidden"⟩]⟩]) (cs "/d")).1 = true ∧
    (lsColParse (renderMultistatus
        [⟨cs "/d/f/",
          [⟨[(cs "resourcetype", cs "<collection></collection>"), (cs "size", cs "7")],
            cs "HTTP/1.1 403 Forbidden"⟩]⟩]) (cs "/d")).2.folders = [cs "/d/f/"] ∧
    (lsColParse (renderMultistatus
        [⟨cs "/d/f/",
          [⟨[(cs "resourcetype", cs "<collection></collection>"), (cs "size", cs "7")],
            cs "HTTP/1.1 403 Forbidden"⟩]⟩]) (cs "/d")).2.sizes = [(cs "/d/f/", 7)] ∧
    (lsColParse (renderMultistatus
        [⟨cs "/d/f/",
          [⟨[(cs "resourcetype", cs "<collection></collection>"), (cs "size", cs "7")],
            cs "HTTP/1.1 403 Forbidden"⟩]⟩]) (cs "/d")).2.emitted
      = [(chopSlash (cs "/d/f/"), [])] :=
  lsColParse_folders_sizes_not_gated (cs "/d/f/") (cs "<collection></collection>")
    (cs "7") (cs "HTTP/1.1 403 Forbidden") (cs "/d") 7
    (by decide) (by decide) (by decide) (by decide) (by decide)

/-- C3: for every discovery completion that is not the fallback retry
(and whose reply is transport-consistent: a redirect-loop error never comes
with HTTP status 200), `instanceFound` is reported if and only if the body
is non-empty, the HTTP status is 200, the body decodes as JSON, and the
decoded JSON object contains an `installed` field; otherwise the outcome is
`instanceNotFound`, never a partial success. -/
theorem checkServer_instance_found_iff (st : CheckServerState) (r : StatusReply)
    (hTMR : r.error = NetError.tooManyRedirects → r.httpStatus ≠ 200)
    (hRetry : (checkServerFinished st r).2 ≠ CheckOutcome.retry) :
    ((checkServerFinished st r).2 = CheckOutcome.instanceFound ↔
      (r.body ≠ [] ∧ r.httpStatus = 200 ∧
        ∃ doc : JsonDoc, r.json = some doc ∧ cs "installed" ∈ doc.objKeys)) ∧
    ((checkServerFinished st r).2 = CheckOutcome.instanceFound ∨
      (checkServerFinished st r).2 = CheckOutcome.instanceNotFound) := by
  have hkeys : ∀ (j : Option JsonDoc) (k : List Char),
      k ∈ jsonObjKeys j ↔ ∃ doc, j = some doc ∧ k ∈ doc.objKeys := by
    intro j k
    cases j <;> simp [jsonObjKeys]
  unfold checkServerFinished at hRetry ⊢
  by_cases h1 : r.error = NetError.contentNotFound ∧ st.subdirFallback = false
  · rw [if_pos h1] at hRetry; exact absurd rfl hRetry
  · rw [if_neg h1] at hRetry ⊢
    by_cases h2 : r.error = NetError.tooManyRedirects
    · rw [if_pos h2]
      refine ⟨⟨(fun hc => nomatch hc), fun hc => absurd hc.2.1 (hTMR h2)⟩, Or.inr rfl⟩
    · rw [if_neg h2]
      by_cases h3 : r.body = [] ∨ r.httpStatus ≠ 200
      · rw [if_pos h3]
        refine ⟨⟨(fun hc => nomatch hc), fun hc => ?_⟩, Or.inr rfl⟩
        rcases h3 with h3 | h3
        · exact absurd h3 hc.1
        · exact absurd hc.2.1 h3
      · rw [if_neg h3]
        push_neg at h3
        by_cases hkey : cs "installed" ∈ jsonObjKeys r.json
        · rw [if_pos hkey]
          exact ⟨⟨fun _ => ⟨h3.1, h3.2, (hkeys _ _).mp hkey⟩, fun _ => rfl⟩, Or.inl rfl⟩
        · rw [if_neg hkey]
          exact ⟨⟨(fun hc => nomatch hc),
            fun hc => absurd ((hkeys _ _).mpr hc.2.2) hkey⟩, Or.inr rfl⟩

/-- Witness for `checkServer_instance_found_iff` at a concrete reply. -/
theorem checkServer_instance_found_iff_witness :
    ((checkServerFinished checkServerInit
        ⟨NetError.noError, 200, cs "j", some ⟨[cs "installed"]⟩⟩).2
       = CheckOutcome.instanceFound ↔
      (cs "j" ≠ [] ∧ (200 : Int) = 200 ∧
        ∃ doc : JsonDoc, some (⟨[cs "installed"]⟩ : JsonDoc) = some doc ∧
          cs "installed" ∈ doc.objKeys)) ∧
    ((checkServerFinished checkServerInit
        ⟨NetError.noError, 200, cs "j", some ⟨[cs "installed"]⟩⟩).2
       = CheckOutcome.instanceFound ∨
      (checkServerFinished checkServerInit
        ⟨NetError.noError, 200, cs "j", some ⟨[cs "installed"]⟩⟩).2
       = CheckOutcome.instanceNotFound) :=
  checkServer_instance_found_iff checkServerInit
    ⟨NetError.noError, 200, cs "j", some ⟨[cs "installed"]⟩⟩
    (by decide) (by decide)

/-- C4 counterexample: the header `Bearer` does contain the token `bearer`
case-insensitively, yet the probe classifies it as `Basic`, because the code
searches for the substring `bearer ` with a trailing space. -/
theorem determineAuthType_bearer_counterexample :
    (cs "bearer" <:+: (cs "Bearer").map asciiLower) ∧
    determineAuthType (cs "Bearer") = AuthType.basic :=
  ⟨by decide, by decide⟩

/-- C4 (amended): the classification is a function of the lowercased
`WWW-Authenticate` header: `OAuth` exactly when it contains the substring
`bearer ` (the token `bearer` followed by a space), and `Basic` otherwise —
in particular for the absent (empty) header; the cited examples behave as
stated. -/
theorem determineAuthType_classification :
    (∀ h : List Char,
      determineAuthType h = AuthType.oauth ↔ cs "bearer " <:+: h.map asciiLower) ∧
    determineAuthType [] = AuthType.basic ∧
    determineAuthType (cs "Bearer realm=\"x\"") = AuthType.oauth ∧
    determineAuthType (cs "Basic realm=\"x\"") = AuthType.basic := by
  refine ⟨fun h => ?_, by decide, by decide, by decide⟩
  unfold determineAuthType
  split
  · rename_i hc; simp [hc]
  · rename_i hc; simp [hc]

/-- C5: a content-not-found completion of the initial request restarts the
job exactly once against `owncloud/status.php`; a whole run beginning with
such a completion contains exactly one retry, and no run, however the
retried request completes, ever contains more than one retry. -/
theorem checkServer_fallback_retry_once (r : StatusReply)
    (h404 : r.error = NetError.contentNotFound) :
    checkServerFinished checkServerInit r
      = (⟨true, cs "owncloud/status.php"⟩, CheckOutcome.retry) ∧
    (∀ rs : List StatusReply,
      (checkServerRun checkServerInit (r :: rs)).count CheckOutcome.retry = 1) ∧
    (∀ st : CheckServerState, ∀ rs : List StatusReply,
      (checkServerRun st rs).count CheckOutcome.retry ≤ 1) := by
  have hA : checkServerFinished checkServerInit r
      = (⟨true, cs "owncloud/status.php"⟩, CheckOutcome.retry) := by
    unfold checkServerFinished
    rw [if_pos ⟨h404, rfl⟩]
    decide
  refine ⟨hA, fun rs => ?_, fun st rs => checkServerRun_retry_le_one st rs⟩
  unfold checkServerRun
  rw [List.count_cons, hA]
  rw [checkServerRun_no_retry _ _ (by simp [hA])]
  simp

/-- Witness for `checkServer_fallback_retry_once` at a concrete 404 reply. -/
theorem checkServer_fallback_retry_once_witness :
    checkServerFinished checkServerInit ⟨NetError.contentNotFound, 404, [], none⟩
      = (⟨true, cs "owncloud/status.php"⟩, CheckOutcome.retry) ∧
    (checkServerRun checkServerInit
        [⟨NetError.contentNotFound, 404, [], none⟩,
         ⟨NetError.contentNotFound, 404, [], none⟩]).count CheckOutcome.retry = 1 :=
  ⟨(checkServer_fallback_retry_once ⟨NetError.contentNotFound, 404, [], none⟩ rfl).1,
   (checkServer_fallback_retry_once ⟨NetError.contentNotFound, 404, [], none⟩ rfl).2.1
     [⟨NetError.contentNotFound, 404, [], none⟩]⟩

/-- C6: the entity-tag normalizer maps `W/"abc-gzip"`, `"abc"` and `abc`
all to `abc`; in general a leading `W/` marker is stripped, one pair of
surrounding double quotes is unwrapped, and a `-gzip` suffix artifact is
deleted (the general clauses hold whenever no stray `-gzip` or `W/`
occurrence interferes with the respective step). -/
theorem parseEtag_normalization :
    parseEtag (cs "W/\"abc-gzip\"") = cs "abc" ∧
    parseEtag (cs "\"abc\"") = cs "abc" ∧
    parseEtag (cs "abc") = cs "abc" ∧
    (∀ t : List Char, ¬ cs "W/" <+: t → parseEtag ('W' :: '/' :: t) = parseEtag t) ∧
    (∀ t : List Char, ¬ cs "-gzip" <:+: ('"' :: t ++ ['"']) →
      parseEtag ('"' :: t ++ ['"']) = t) ∧
    (∀ t : List Char, (∀ i < t.length, ¬ cs "-gzip" <+: (t ++ cs "-gzip").drop i) →
      ¬ cs "W/" <+: t → parseEtag (t ++ cs "-gzip") = parseEtag t) :=
  ⟨by decide, by decide, by decide,
   parseEtag_w_strip, parseEtag_unquote, parseEtag_gzip_suffix⟩

/-- Witness for the hypothesis-carrying clauses of `parseEtag_normalization`
at concrete entity tags. -/
theorem parseEtag_normalization_witness :
    parseEtag ('W' :: '/' :: cs "\"v1\"") = parseEtag (cs "\"v1\"") ∧
    parseEtag ('"' :: cs "v1" ++ ['"']) = cs "v1" ∧
    parseEtag (cs "v1" ++ cs "-gzip") = parseEtag (cs "v1") :=
  ⟨parseEtag_normalization.2.2.2.1 (cs "\"v1\"") (by decide),
   parseEtag_normalization.2.2.2.2.1 (cs "v1") (by decide),
   parseEtag_normalization.2.2.2.2.2 (cs "v1") (by decide) (by decide)⟩

end NetworkJobs
